import Mathlib

/-!
Verification of the shell-argument escaping engine vendored in this
repository (the shescape library).  Strings are modelled as `List Char`;
every JavaScript regular-expression replacement pass of the source is
translated into an executable list transform, and the public pipeline
(escape / quote, flag protection, option parsing, platform dispatch) is
built from those transforms exactly as the source composes them.
-/

set_option autoImplicit false

namespace Shescape

/-! ### Character constants

Named code points used by the source's regular expressions. -/

/-- U+0000 NUL. -/
def nulC : Char := Char.ofNat 0

/-- U+0008 backspace. -/
def bsC : Char := Char.ofNat 8

/-- U+0009 horizontal tab. -/
def tabC : Char := Char.ofNat 9

/-- U+000A line feed. -/
def lfC : Char := Char.ofNat 10

/-- U+000D carriage return. -/
def crC : Char := Char.ofNat 13

/-- U+001B ESC. -/
def escC : Char := Char.ofNat 27

/-- U+009B CSI. -/
def csiC : Char := Char.ofNat 155

/-- Backslash. -/
def bslC : Char := Char.ofNat 92

/-- Single quote (apostrophe). -/
def sqC : Char := Char.ofNat 39

/-- Backtick. -/
def bkC : Char := Char.ofNat 96

/-- Double quote. -/
def dqC : Char := Char.ofNat 34

/-- The JavaScript `\s` character class (Unicode mode). -/
def isJsWs (c : Char) : Bool :=
  let n := c.toNat
  n = 9 || n = 10 || n = 11 || n = 12 || n = 13 || n = 32 || n = 160 ||
  n = 5760 || (8192 ≤ n && n ≤ 8202) || n = 8232 || n = 8233 || n = 8239 ||
  n = 8287 || n = 12288 || n = 65279

/-- The character class `[\s\u0085]` used by the PowerShell dialect. -/
def isPsWs (c : Char) : Bool :=
  isJsWs c || c.toNat = 133

/-! ### Generic replacement passes

`replEach f` is a global regular-expression replacement whose matches are
single characters: each character `c` is replaced by the list `f c`. -/

/-- Replace every character `c` of the list by `f c`. -/
def replEach (f : Char → List Char) : List Char → List Char
  | [] => []
  | c :: rest => f c ++ replEach f rest

theorem replEach_nil (f : Char → List Char) : replEach f [] = [] := rfl

theorem replEach_cons (f : Char → List Char) (c : Char) (l : List Char) :
    replEach f (c :: l) = f c ++ replEach f l := rfl

theorem replEach_append (f : Char → List Char) (a b : List Char) :
    replEach f (a ++ b) = replEach f a ++ replEach f b := by
  induction a with
  | nil => rfl
  | cons c rest ih => simp [replEach, ih]

theorem mem_replEach {f : Char → List Char} {x : Char} {l : List Char}
    (h : x ∈ replEach f l) : ∃ a, a ∈ l ∧ x ∈ f a := by
  induction l with
  | nil => simp [replEach] at h
  | cons c rest ih =>
    simp only [replEach, List.mem_append] at h
    cases h with
    | inl h => exact ⟨c, List.mem_cons_self c rest, h⟩
    | inr h =>
      obtain ⟨a, ha, hx⟩ := ih h
      exact ⟨a, List.mem_cons_of_mem c ha, hx⟩

theorem replEach_replicate_append {f : Char → List Char} {c : Char}
    (hf : f c = [c]) (k : Nat) (t : List Char) :
    replEach f (List.replicate k c ++ t) = List.replicate k c ++ replEach f t := by
  induction k with
  | zero => simp
  | succ n ih => simp [List.replicate_succ, replEach, hf, ih]

/-! ### Look-behind passes

`escAfterB ws sel e prev l` models the replacement
`(?<=^|ws)(sel) -> e$1`: a selected character is escaped with `e` exactly
when it is at the start of the string or preceded (in the input) by a
whitespace character.  `prev` is the character preceding `l` in the input
(`none` at the very start). -/

/-- The boundary test of a `(?<=^|ws)` look-behind: true at the start of the
string or after a whitespace character. -/
def atBoundary (ws : Char → Bool) : Option Char → Bool
  | none => true
  | some p => ws p

/-- Escape characters selected by `sel` with `e` when at the start of the
string or after a whitespace character (per `ws`). -/
def escAfterB (ws sel : Char → Bool) (e : Char) : Option Char → List Char → List Char
  | _, [] => []
  | prev, c :: rest =>
    if atBoundary ws prev && sel c then e :: c :: escAfterB ws sel e (some c) rest
    else c :: escAfterB ws sel e (some c) rest

theorem escAfterB_cons_unsel {ws sel : Char → Bool} {e c : Char}
    (hc : sel c = false) (p : Option Char) (l : List Char) :
    escAfterB ws sel e p (c :: l) = c :: escAfterB ws sel e (some c) l := by
  simp [escAfterB, hc]

theorem mem_escAfterB {ws sel : Char → Bool} {e x : Char} :
    ∀ (l : List Char) (p : Option Char), x ∈ escAfterB ws sel e p l → x ∈ l ∨ x = e := by
  intro l
  induction l with
  | nil => intro p h; simp [escAfterB] at h
  | cons c rest ih =>
    intro p h
    rw [escAfterB] at h
    by_cases hb : (atBoundary ws p && sel c) = true
    · rw [if_pos hb] at h
      simp only [List.mem_cons] at h
      rcases h with h | h | h
      · right; exact h
      · left; simp [h]
      · rcases ih (some c) h with h2 | h2
        · left; exact List.mem_cons_of_mem c h2
        · right; exact h2
    · rw [if_neg hb] at h
      simp only [List.mem_cons] at h
      rcases h with h | h
      · left; simp [h]
      · rcases ih (some c) h with h2 | h2
        · left; exact List.mem_cons_of_mem c h2
        · right; exact h2

theorem escAfterB_replicate_unsel {ws sel : Char → Bool} {e c : Char}
    (hc : sel c = false) (k : Nat) (p : Option Char) (t : List Char) :
    escAfterB ws sel e p (List.replicate (k + 1) c ++ t) =
      List.replicate (k + 1) c ++ escAfterB ws sel e (some c) t := by
  induction k generalizing p with
  | zero => simp [List.replicate_succ, escAfterB_cons_unsel hc]
  | succ n ih =>
    rw [List.replicate_succ, List.cons_append, escAfterB_cons_unsel hc]
    rw [ih (some c)]
    simp [List.replicate_succ]

/-! ### csh history-expansion escaping

Models `.replace(/!(?!$)/gu, "\\!")`: every exclamation mark that is not
the final character of the string is backslash-escaped. -/

/-- Backslash-escape every exclamation mark that is not the final character. -/
def escBang : List Char → List Char
  | [] => []
  | [c] => [c]
  | c :: rest =>
    if c = '!' then bslC :: '!' :: escBang rest
    else c :: escBang rest

theorem escBang_cons_ne {c : Char} (hc : c ≠ '!') (l : List Char) :
    escBang (c :: l) = c :: escBang l := by
  cases l with
  | nil => rfl
  | cons d rest => simp [escBang, hc]

theorem escBang_cons_bang (d : Char) (l : List Char) :
    escBang ('!' :: d :: l) = bslC :: '!' :: escBang (d :: l) := by
  simp [escBang]

theorem escBang_replicate_append {c : Char} (hc : c ≠ '!') (k : Nat) (t : List Char) :
    escBang (List.replicate k c ++ t) = List.replicate k c ++ escBang t := by
  induction k with
  | zero => simp
  | succ n ih => simp [List.replicate_succ, escBang_cons_ne hc, ih]

theorem mem_escBang {x : Char} : ∀ (l : List Char), x ∈ escBang l → x ∈ l ∨ x = bslC := by
  intro l
  induction l with
  | nil => intro h; simp [escBang] at h
  | cons c rest ih =>
    intro h
    cases rest with
    | nil =>
      simp only [escBang, List.mem_singleton] at h
      left; simp [h]
    | cons d rest2 =>
      by_cases hc : c = '!'
      · subst hc
        rw [escBang_cons_bang] at h
        simp only [List.mem_cons] at h
        rcases h with h | h | h
        · right; exact h
        · left; simp [h]
        · rcases ih h with h2 | h2
          · left; exact List.mem_cons_of_mem _ h2
          · right; exact h2
      · rw [escBang_cons_ne hc] at h
        simp only [List.mem_cons] at h
        rcases h with h | h
        · left; simp [h]
        · rcases ih h with h2 | h2
          · left; exact List.mem_cons_of_mem _ h2
          · right; exact h2

/-! ### PowerShell redirection-operator escaping

Models `.replace(/(?<=^|[\s\u0085])([*1-6]?)(>)/gu, "$1` + backtick + `$2")`:
at the start of the string or after whitespace, an optional single character
from `[*1-6]` followed by `>` has a backtick inserted before the `>`. -/

/-- The character class `[*1-6]`. -/
def gtOpt (c : Char) : Bool :=
  c = '*' || (Char.ofNat 49 ≤ c && c ≤ Char.ofNat 54)

/-- Backtick-escape `>` (optionally preceded by `[*1-6]`) at the start of the
string or after PowerShell whitespace. -/
def psGt : Option Char → List Char → List Char
  | _, [] => []
  | prev, [c] =>
    if atBoundary isPsWs prev && c = '>' then [bkC, '>'] else [c]
  | prev, c :: d :: rest =>
    if atBoundary isPsWs prev then
      if c = '>' then bkC :: '>' :: psGt (some '>') (d :: rest)
      else if gtOpt c && d = '>' then c :: bkC :: '>' :: psGt (some '>') rest
      else c :: psGt (some c) (d :: rest)
    else c :: psGt (some c) (d :: rest)

theorem psGt_cons_plain {c : Char} (h1 : c ≠ '>') (h2 : gtOpt c = false)
    (p : Option Char) (l : List Char) :
    psGt p (c :: l) = c :: psGt (some c) l := by
  cases l with
  | nil => simp [psGt, h1]
  | cons d rest =>
    by_cases hb : atBoundary isPsWs p = true
    · simp [psGt, hb, h1, h2]
    · simp only [Bool.not_eq_true] at hb
      simp [psGt, hb]

theorem mem_psGt_aux {x : Char} :
    ∀ (n : Nat) (l : List Char), l.length ≤ n → ∀ (p : Option Char),
      x ∈ psGt p l → x ∈ l ∨ x = bkC := by
  intro n
  induction n with
  | zero =>
    intro l hl p h
    have hnil : l = [] := List.length_eq_zero.mp (Nat.le_zero.mp hl)
    subst hnil
    simp [psGt] at h
  | succ n ih =>
    intro l hl p h
    match l with
    | [] => simp [psGt] at h
    | [c] =>
      simp only [psGt] at h
      by_cases hb : (atBoundary isPsWs p && decide (c = '>')) = true
      · rw [if_pos hb] at h
        have hc : c = '>' := of_decide_eq_true ((Bool.and_eq_true _ _).mp hb).2
        simp only [List.mem_cons, List.not_mem_nil, or_false] at h
        rcases h with h | h
        · right; exact h
        · left; simp [h, hc]
      · rw [if_neg hb] at h
        simp only [List.mem_singleton] at h
        left; simp [h]
    | c :: d :: rest =>
      have hrest : (d :: rest).length ≤ n := by
        simpa using Nat.succ_le_succ_iff.mp (by simpa using hl)
      have hrest2 : rest.length ≤ n := Nat.le_trans (by simp) hrest
      simp only [psGt] at h
      by_cases hb : atBoundary isPsWs p = true
      · rw [if_pos hb] at h
        by_cases hgt : c = '>'
        · rw [if_pos (by simpa using hgt)] at h
          simp only [List.mem_cons] at h
          rcases h with h | h | h
          · right; exact h
          · left; simp [h, hgt]
          · rcases ih (d :: rest) hrest (some '>') h with h2 | h2
            · left; exact List.mem_cons_of_mem c h2
            · right; exact h2
        · rw [if_neg (by simpa using hgt)] at h
          by_cases hopt : (gtOpt c && decide (d = '>')) = true
          · rw [if_pos hopt] at h
            have hd : d = '>' := of_decide_eq_true ((Bool.and_eq_true _ _).mp hopt).2
            simp only [List.mem_cons] at h
            rcases h with h | h | h | h
            · left; simp [h]
            · right; exact h
            · left; simp [h, hd]
            · rcases ih rest hrest2 (some '>') h with h2 | h2
              · left; exact List.mem_cons_of_mem c (List.mem_cons_of_mem d h2)
              · right; exact h2
          · rw [if_neg hopt] at h
            simp only [List.mem_cons] at h
            rcases h with h | h
            · left; simp [h]
            · rcases ih (d :: rest) hrest (some c) h with h2 | h2
              · left; exact List.mem_cons_of_mem c h2
              · right; exact h2
      · rw [if_neg hb] at h
        simp only [List.mem_cons] at h
        rcases h with h | h
        · left; simp [h]
        · rcases ih (d :: rest) hrest (some c) h with h2 | h2
          · left; exact List.mem_cons_of_mem c h2
          · right; exact h2

theorem mem_psGt {x : Char} (l : List Char) (p : Option Char)
    (h : x ∈ psGt p l) : x ∈ l ∨ x = bkC :=
  mem_psGt_aux l.length l (Nat.le_refl _) p h

theorem psGt_replicate {c : Char} (h1 : c ≠ '>') (h2 : gtOpt c = false)
    (k : Nat) (p : Option Char) (t : List Char) :
    psGt p (List.replicate (k + 1) c ++ t) =
      List.replicate (k + 1) c ++ psGt (some c) t := by
  induction k generalizing p with
  | zero => simp [List.replicate_succ, psGt_cons_plain h1 h2]
  | succ n ih =>
    rw [List.replicate_succ, List.cons_append, psGt_cons_plain h1 h2, ih (some c)]
    simp [List.replicate_succ]

/-! ### Backslash runs followed by a double quote

`bsRunT trig q l n` models a global replacement `(?<!\\)(\\*)X -> ...`
where `X` is a character satisfying `trig`: a maximal run of backslashes
followed by a trigger character is replaced by `q runLength triggerChar`.
`n` is the number of pending backslashes already consumed. -/

/-- Replace each maximal backslash run followed by a trigger character with
`q n c`; other characters (and unfollowed runs) are emitted unchanged. -/
def bsRunT (trig : Char → Bool) (q : Nat → Char → List Char) :
    List Char → Nat → List Char
  | [], n => List.replicate n bslC
  | c :: rest, n =>
    if c = bslC then bsRunT trig q rest (n + 1)
    else if trig c then q n c ++ bsRunT trig q rest 0
    else List.replicate n bslC ++ c :: bsRunT trig q rest 0

theorem bsRunT_cons_plain {trig : Char → Bool} {q : Nat → Char → List Char}
    {c : Char} (h1 : c ≠ bslC) (h2 : trig c = false) (l : List Char) :
    bsRunT trig q (c :: l) 0 = c :: bsRunT trig q l 0 := by
  simp [bsRunT, h1, h2]

theorem bsRunT_replicate {trig : Char → Bool} {q : Nat → Char → List Char}
    {c : Char} (h1 : c ≠ bslC) (h2 : trig c = false) (k : Nat) (t : List Char) :
    bsRunT trig q (List.replicate k c ++ t) 0 =
      List.replicate k c ++ bsRunT trig q t 0 := by
  induction k with
  | zero => simp
  | succ n ih => simp [List.replicate_succ, bsRunT_cons_plain h1 h2, ih]

theorem mem_bsRunT {trig : Char → Bool} {q : Nat → Char → List Char}
    {E : List Char} (hq : ∀ n c, trig c = true → ∀ x ∈ q n c, x ∈ E)
    {x : Char} :
    ∀ (l : List Char) (n : Nat), x ∈ bsRunT trig q l n → x ∈ l ∨ x = bslC ∨ x ∈ E := by
  intro l
  induction l with
  | nil =>
    intro n h
    simp only [bsRunT] at h
    right; left; exact (List.eq_of_mem_replicate h)
  | cons c rest ih =>
    intro n h
    simp only [bsRunT] at h
    by_cases hc : c = bslC
    · rw [if_pos hc] at h
      rcases ih (n + 1) h with h2 | h2
      · left; exact List.mem_cons_of_mem c h2
      · right; exact h2
    · rw [if_neg hc] at h
      by_cases ht : trig c = true
      · rw [if_pos ht] at h
        rcases List.mem_append.mp h with h2 | h2
        · right; right; exact hq n c ht x h2
        · rcases ih 0 h2 with h3 | h3
          · left; exact List.mem_cons_of_mem c h3
          · right; exact h3
      · rw [if_neg ht] at h
        rcases List.mem_append.mp h with h2 | h2
        · right; left; exact List.eq_of_mem_replicate h2
        · simp only [List.mem_cons] at h2
          rcases h2 with h2 | h2
          · left; simp [h2]
          · rcases ih 0 h2 with h3 | h3
            · left; exact List.mem_cons_of_mem c h3
            · right; exact h3

/-! ### CMD's quote-parity caret escaping

Models the character map of the CMD escape function: a flag flips at every
double quote, and while the flag is set the characters `% & < > ^ |` are
escaped with a caret. -/

/-- The CMD special characters `[%&<>^|]`. -/
def cmdSpecial (c : Char) : Bool :=
  c = '%' || c = '&' || c = '<' || c = '>' || c = '^' || c = '|'

/-- Caret-escape CMD special characters, toggling on double quotes. -/
def cmdToggle : Bool → List Char → List Char
  | _, [] => []
  | b, c :: rest =>
    if c = dqC then c :: cmdToggle (!b) rest
    else if b && cmdSpecial c then '^' :: c :: cmdToggle b rest
    else c :: cmdToggle b rest

theorem cmdToggle_cons_plain {c : Char} (h1 : c ≠ dqC) (h2 : cmdSpecial c = false)
    (b : Bool) (l : List Char) :
    cmdToggle b (c :: l) = c :: cmdToggle b l := by
  simp [cmdToggle, h1, h2]

theorem cmdToggle_replicate {c : Char} (h1 : c ≠ dqC) (h2 : cmdSpecial c = false)
    (k : Nat) (b : Bool) (t : List Char) :
    cmdToggle b (List.replicate k c ++ t) = List.replicate k c ++ cmdToggle b t := by
  induction k with
  | zero => simp
  | succ n ih => simp [List.replicate_succ, cmdToggle_cons_plain h1 h2, ih]

theorem mem_cmdToggle {x : Char} :
    ∀ (l : List Char) (b : Bool), x ∈ cmdToggle b l → x ∈ l ∨ x = '^' := by
  intro l
  induction l with
  | nil => intro b h; simp [cmdToggle] at h
  | cons c rest ih =>
    intro b h
    simp only [cmdToggle] at h
    by_cases hq : c = dqC
    · rw [if_pos hq] at h
      simp only [List.mem_cons] at h
      rcases h with h | h
      · left; simp [h]
      · rcases ih (!b) h with h2 | h2
        · left; exact List.mem_cons_of_mem c h2
        · right; exact h2
    · rw [if_neg hq] at h
      by_cases hs : (b && cmdSpecial c) = true
      · rw [if_pos hs] at h
        simp only [List.mem_cons] at h
        rcases h with h | h | h
        · right; exact h
        · left; simp [h]
        · rcases ih b h with h2 | h2
          · left; exact List.mem_cons_of_mem c h2
          · right; exact h2
      · rw [if_neg hs] at h
        simp only [List.mem_cons] at h
        rcases h with h | h
        · left; simp [h]
        · rcases ih b h with h2 | h2
          · left; exact List.mem_cons_of_mem c h2
          · right; exact h2

/-! ### Carriage returns not followed by a line feed

Models `.replace(/\r(?!\n)/gu, "")`. -/

/-- Remove every carriage return that is not immediately followed by a
line feed. -/
def stripCrNotLf : List Char → List Char
  | [] => []
  | [c] => if c = crC then [] else [c]
  | c :: d :: rest =>
    if c = crC then
      if d = lfC then crC :: lfC :: stripCrNotLf rest
      else stripCrNotLf (d :: rest)
    else c :: stripCrNotLf (d :: rest)

theorem stripCrNotLf_cons_ne {c : Char} (hc : c ≠ crC) (l : List Char) :
    stripCrNotLf (c :: l) = c :: stripCrNotLf l := by
  cases l with
  | nil => simp [stripCrNotLf, hc]
  | cons d rest => simp [stripCrNotLf, hc]

theorem stripCrNotLf_replicate {c : Char} (hc : c ≠ crC) (k : Nat) (t : List Char) :
    stripCrNotLf (List.replicate k c ++ t) = List.replicate k c ++ stripCrNotLf t := by
  induction k with
  | zero => simp
  | succ n ih => simp [List.replicate_succ, stripCrNotLf_cons_ne hc, ih]

theorem mem_stripCrNotLf_aux {x : Char} :
    ∀ (n : Nat) (l : List Char), l.length ≤ n → x ∈ stripCrNotLf l → x ∈ l := by
  intro n
  induction n with
  | zero =>
    intro l hl h
    have hnil : l = [] := List.length_eq_zero.mp (Nat.le_zero.mp hl)
    subst hnil
    simp [stripCrNotLf] at h
  | succ n ih =>
    intro l hl h
    match l with
    | [] => simp [stripCrNotLf] at h
    | [c] =>
      simp only [stripCrNotLf] at h
      by_cases hc : c = crC
      · simp [hc] at h
      · rw [if_neg hc] at h; exact h
    | c :: d :: rest =>
      have hrest : (d :: rest).length ≤ n := by
        simpa using Nat.succ_le_succ_iff.mp (by simpa using hl)
      have hrest2 : rest.length ≤ n := Nat.le_trans (by simp) hrest
      simp only [stripCrNotLf] at h
      by_cases hc : c = crC
      · rw [if_pos hc] at h
        by_cases hd : d = lfC
        · rw [if_pos hd] at h
          simp only [List.mem_cons] at h
          rcases h with h | h | h
          · simp [h, hc]
          · simp [h, hd]
          · exact List.mem_cons_of_mem c (List.mem_cons_of_mem d (ih rest hrest2 h))
        · rw [if_neg hd] at h
          exact List.mem_cons_of_mem c (ih (d :: rest) hrest h)
      · rw [if_neg hc] at h
        simp only [List.mem_cons] at h
        rcases h with h | h
        · simp [h]
        · exact List.mem_cons_of_mem c (ih (d :: rest) hrest h)

theorem mem_stripCrNotLf {x : Char} {l : List Char} (h : x ∈ stripCrNotLf l) : x ∈ l :=
  mem_stripCrNotLf_aux l.length l (Nat.le_refl _) h

/-- No bare carriage return: every CR in the list is immediately followed
by a line feed. -/
def noBareCr : List Char → Bool
  | [] => true
  | [c] => c ≠ crC
  | c :: d :: rest =>
    if c = crC then d = lfC && noBareCr rest
    else noBareCr (d :: rest)

theorem noBareCr_stripCrNotLf_aux :
    ∀ (n : Nat) (l : List Char), l.length ≤ n → noBareCr (stripCrNotLf l) = true := by
  intro n
  induction n with
  | zero =>
    intro l hl
    have hnil : l = [] := List.length_eq_zero.mp (Nat.le_zero.mp hl)
    subst hnil
    rfl
  | succ n ih =>
    intro l hl
    match l with
    | [] => rfl
    | [c] =>
      by_cases hc : c = crC
      · simp [stripCrNotLf, hc, noBareCr]
      · simp only [stripCrNotLf, if_neg hc]
        simp [noBareCr, hc]
    | c :: d :: rest =>
      have hrest : (d :: rest).length ≤ n := by
        simpa using Nat.succ_le_succ_iff.mp (by simpa using hl)
      have hrest2 : rest.length ≤ n := Nat.le_trans (by simp) hrest
      by_cases hc : c = crC
      · by_cases hd : d = lfC
        · have : stripCrNotLf (c :: d :: rest) = crC :: lfC :: stripCrNotLf rest := by
            simp [stripCrNotLf, hc, hd]
          rw [this]
          have hr := ih rest hrest2
          cases hsr : stripCrNotLf rest with
          | nil => simp [noBareCr]
          | cons e r2 =>
            rw [hsr] at hr
            simp [noBareCr, hr]
        · have : stripCrNotLf (c :: d :: rest) = stripCrNotLf (d :: rest) := by
            simp [stripCrNotLf, hc, hd]
          rw [this]
          exact ih (d :: rest) hrest
      · rw [stripCrNotLf_cons_ne hc]
        have hr := ih (d :: rest) hrest
        cases hsr : stripCrNotLf (d :: rest) with
        | nil => simp [noBareCr, hc]
        | cons e r2 =>
          rw [hsr] at hr
          simp [noBareCr, hc, hr]

theorem noBareCr_stripCrNotLf (l : List Char) : noBareCr (stripCrNotLf l) = true :=
  noBareCr_stripCrNotLf_aux l.length l (Nat.le_refl _)

theorem stripCrNotLf_of_noBareCr_aux :
    ∀ (n : Nat) (l : List Char), l.length ≤ n → noBareCr l = true → stripCrNotLf l = l := by
  intro n
  induction n with
  | zero =>
    intro l hl _
    have hnil : l = [] := List.length_eq_zero.mp (Nat.le_zero.mp hl)
    subst hnil
    rfl
  | succ n ih =>
    intro l hl hn
    match l with
    | [] => rfl
    | [c] =>
      simp only [noBareCr] at hn
      have hc : c ≠ crC := by simpa using hn
      simp [stripCrNotLf, hc]
    | c :: d :: rest =>
      have hrest : (d :: rest).length ≤ n := by
        simpa using Nat.succ_le_succ_iff.mp (by simpa using hl)
      have hrest2 : rest.length ≤ n := Nat.le_trans (by simp) hrest
      by_cases hc : c = crC
      · simp only [noBareCr, if_pos hc, Bool.and_eq_true] at hn
        have hd : d = lfC := by simpa using hn.1
        have : stripCrNotLf (c :: d :: rest) = crC :: lfC :: stripCrNotLf rest := by
          simp [stripCrNotLf, hc, hd]
        rw [this, ih rest hrest2 hn.2, hc, hd]
      · simp only [noBareCr, if_neg hc] at hn
        rw [stripCrNotLf_cons_ne hc, ih (d :: rest) hrest hn]

theorem stripCrNotLf_idem (l : List Char) :
    stripCrNotLf (stripCrNotLf l) = stripCrNotLf l :=
  stripCrNotLf_of_noBareCr_aux _ _ (Nat.le_refl _) (noBareCr_stripCrNotLf l)

/-! ### Trailing-backslash doubling and UTF-8 bytes -/

/-- Models `.replace(/(?<!\\)(\\+)$/gu, "$1$1")`: double the maximal trailing
run of backslashes (a no-op when the list does not end in a backslash). -/
def dblTrailBs (l : List Char) : List Char :=
  l ++ List.replicate (l.reverse.takeWhile (fun c => c = bslC)).length bslC

theorem mem_dblTrailBs {x : Char} {l : List Char} (h : x ∈ dblTrailBs l) :
    x ∈ l ∨ x = bslC := by
  rcases List.mem_append.mp h with h2 | h2
  · left; exact h2
  · right; exact List.eq_of_mem_replicate h2

/-- The UTF-8 encoding of a character, as a list of byte values. -/
def utf8Bytes (c : Char) : List Nat :=
  let n := c.toNat
  if n < 128 then [n]
  else if n < 2048 then [192 + n / 64, 128 + n % 64]
  else if n < 65536 then [224 + n / 4096, 128 + n / 64 % 64, 128 + n % 64]
  else [240 + n / 262144, 128 + n / 4096 % 64, 128 + n / 64 % 64, 128 + n % 64]

/-! ### Shared single-character replacement passes -/

/-- The control characters removed by the escape functions:
`[\0\u0008\r\u001B\u009B]`. -/
def ctl5 (c : Char) : Bool :=
  c = nulC || c = bsC || c = crC || c = escC || c = csiC

/-- The control characters removed by the quote-mode escape functions:
`[\0\u0008\u001B\u009B]` (the carriage return is handled separately). -/
def ctl4 (c : Char) : Bool :=
  c = nulC || c = bsC || c = escC || c = csiC

/-- Models `.replace(/[\0\u0008\r\u001B\u009B]/gu, "")`. -/
def filter5 : List Char → List Char :=
  replEach (fun c => if ctl5 c then [] else [c])

/-- Models `.replace(/[\0\u0008\u001B\u009B]/gu, "")`. -/
def filter4 : List Char → List Char :=
  replEach (fun c => if ctl4 c then [] else [c])

/-- Models `.replace(/\n/gu, " ")`. -/
def nlToSp : List Char → List Char :=
  replEach (fun c => if c = lfC then [' '] else [c])

/-- Models `.replace(/\\/gu, "\\\\")`: double every backslash. -/
def dupBsl : List Char → List Char :=
  replEach (fun c => if c = bslC then [bslC, bslC] else [c])

/-- Models the backtick doubling of the PowerShell escape function. -/
def dupBk : List Char → List Char :=
  replEach (fun c => if c = bkC then [bkC, bkC] else [c])

/-- Backslash- or backtick-escape every character of a class `S` with `e`. -/
def escSet (S : Char → Bool) (e : Char) : List Char → List Char :=
  replEach (fun c => if S c then [e, c] else [c])

/-- Models `.replace(/'/gu, "'\\''")` of the Unix quote-mode escapes. -/
def sqRepl : List Char → List Char :=
  replEach (fun c => if c = sqC then [sqC, bslC, sqC, sqC] else [c])

/-! ### csh specifics -/

/-- Models `.replace(/\\!$/gu, "\\\\!")` of the csh quote-mode escape: a
trailing backslash-exclamation pair gains one more backslash. -/
def fixTrailBsBang (l : List Char) : List Char :=
  match l.reverse with
  | b :: c :: rest =>
    if b = '!' && c = bslC then ('!' :: bslC :: bslC :: rest).reverse else l
  | _ => l

/-- The single-character map of the csh escape function: a character whose
UTF-8 encoding contains the byte `0xA0` is wrapped in single quotes. -/
def cshA0 : List Char → List Char :=
  replEach (fun c => if (utf8Bytes c).contains 160 then [sqC, c, sqC] else [c])

/-! ### Character classes of the dialect escape functions -/

/-- Tab or space, the class `[\t ]`. -/
def tabSp (c : Char) : Bool :=
  c = tabC || c = ' '

/-- Dash's class `["$&'()*;<>?` + backtick + `|]`. -/
def dashClass (c : Char) : Bool :=
  c = dqC || c = '$' || c = '&' || c = sqC || c = '(' || c = ')' || c = '*' ||
  c = ';' || c = '<' || c = '>' || c = '?' || c = bkC || c = '|'

/-- Zsh's class: Dash's class plus `[ ] { }`. -/
def zshClass (c : Char) : Bool :=
  dashClass c || c = '[' || c = ']' || c = '{' || c = '}'

/-- csh's class `["#$&'()*;<>?[` + backtick + `{|]`. -/
def cshClass (c : Char) : Bool :=
  c = dqC || c = '#' || c = '$' || c = '&' || c = sqC || c = '(' || c = ')' ||
  c = '*' || c = ';' || c = '<' || c = '>' || c = '?' || c = '[' || c = bkC ||
  c = '{' || c = '|'

/-- The hash-or-tilde class `[#~]` escaped at the start or after whitespace. -/
def hashTilde (c : Char) : Bool :=
  c = '#' || c = '~'

/-- Zsh's start-of-word class `[#=~]`. -/
def hashEqTilde (c : Char) : Bool :=
  c = '#' || c = '=' || c = '~'

/-- PowerShell's start-of-word class `[#\-:<@\]]`. -/
def psAfterWsSet (c : Char) : Bool :=
  c = '#' || c = '-' || c = ':' || c = '<' || c = '@' || c = ']'

/-- PowerShell's always-escaped class
`[$&'(),;{|}]` plus the curly single and double quote variants. -/
def psClass (c : Char) : Bool :=
  c = '$' || c = '&' || c = sqC || c = '(' || c = ')' || c = ',' || c = ';' ||
  c = '{' || c = '|' || c = '}' || c.toNat = 8216 || c.toNat = 8217 ||
  c.toNat = 8218 || c.toNat = 8219 || c.toNat = 8220 || c.toNat = 8221 ||
  c.toNat = 8222

/-- The curly single-quote variants `['‘’‚‛]` doubled by the PowerShell
quote-mode escape. -/
def psQuotedSq (c : Char) : Bool :=
  c = sqC || c.toNat = 8216 || c.toNat = 8217 || c.toNat = 8218 || c.toNat = 8219

/-! ### Dialect escape functions (interpolation mode)

Each is the composition of the source's replacement passes, innermost pass
first. -/

/-- The Dash escape function (`src/unix/dash.js`, `escapeArg`). -/
def dashEscape (l : List Char) : List Char :=
  escSet tabSp bslC
    (escSet dashClass bslC
      (escAfterB isJsWs hashTilde bslC none
        (dupBsl (nlToSp (filter5 l)))))

/-- The Zsh escape function (`src/unix/zsh.js`, `escapeArg`). -/
def zshEscape (l : List Char) : List Char :=
  escSet tabSp bslC
    (escSet zshClass bslC
      (escAfterB isJsWs hashEqTilde bslC none
        (dupBsl (nlToSp (filter5 l)))))

/-- The csh escape function (`src/unix/csh.js`, `escapeArg`). -/
def cshEscape (l : List Char) : List Char :=
  cshA0
    (escSet tabSp bslC
      (escSet cshClass bslC
        (escBang
          (escAfterB isJsWs (fun c => c = '~') bslC none
            (dupBsl (nlToSp (filter5 l)))))))

/-- The no-shell escape function (`src/unix/no-shell.js`, `escapeArg`). -/
def noshEscape (l : List Char) : List Char :=
  stripCrNotLf (filter4 l)

/-- The CMD escape function (`src/win/cmd.js`, `escapeArg`): the
quote-doubling pass `(?<!\\)(\\*)" -> $1$1\"` followed by the parity-toggled
caret escaping. -/
def cmdEscape (l : List Char) : List Char :=
  cmdToggle true
    (bsRunT (fun c => c = dqC) (fun n _ => List.replicate (2 * n) bslC ++ [bslC, dqC])
      (nlToSp (filter5 l)) 0)

/-- The first six replacement passes of the PowerShell escape function
(`src/win/powershell.js`, `escapeArg`), up to the double-quote handling. -/
def psEscapePre (l : List Char) : List Char :=
  escSet psClass bkC
    (escAfterB isPsWs psAfterWsSet bkC none
      (psGt none (dupBk (nlToSp (filter5 l)))))

/-- The PowerShell escape function (`src/win/powershell.js`, `escapeArg`):
after the six initial passes, double quotes are escaped in one of two ways
depending on whether the argument contains whitespace beyond a leading run,
and finally all whitespace is backtick-escaped. -/
def psEscape (l : List Char) : List Char :=
  escSet (fun c => isPsWs c) bkC
    (if ((psEscapePre l).dropWhile (fun c => isPsWs c)).any (fun c => isPsWs c) then
      dblTrailBs
        (bsRunT (fun c => c = dqC)
          (fun n _ => List.replicate (2 * n) bslC ++ [bkC, dqC, bkC, dqC])
          (psEscapePre l) 0)
    else
      bsRunT (fun c => c = dqC)
        (fun n _ => List.replicate (2 * n) bslC ++ [bslC, bkC, dqC])
        (psEscapePre l) 0)

/-- Modelled from the spec: the Bash dialect escape function.  The vendored
`src/unix/bash.js` is not under `src/`; per the spec's dialect table the Bash
rules are the Dash rules plus escaping of the brace character and of a tilde
adjacent to a colon or equals sign. -/
def bashClass (c : Char) : Bool :=
  dashClass c || c = '{'

/-- Modelled from the spec: escape a tilde followed by `:` or `=`. -/
def escTildeColonEq : List Char → List Char
  | [] => []
  | c :: rest =>
    if c = '~' && (match rest with | d :: _ => d = ':' || d = '=' | [] => false) then
      bslC :: '~' :: escTildeColonEq rest
    else c :: escTildeColonEq rest

/-- Modelled from the spec: the Bash escape function (`src/unix/bash.js` is
not under `src/`): control-character stripping, newline to space, backslash
doubling, leading `#`/`~` escaping, the Bash metacharacter class, and the
tilde-near-colon/equals rule. -/
def bashEscape (l : List Char) : List Char :=
  escTildeColonEq
    (escSet bashClass bslC
      (escAfterB isJsWs hashTilde bslC none
        (dupBsl (nlToSp (stripCrNotLf (filter4 l))))))

/-! ### Dialect quote-mode escape and wrap functions -/

/-- Dash's quote-mode escape (`src/unix/dash.js`, `escapeArgForQuoted`). -/
def dashQuotedEsc (l : List Char) : List Char :=
  sqRepl (stripCrNotLf (filter4 l))

/-- Zsh's quote-mode escape (`src/unix/zsh.js`, `escapeArgForQuoted`). -/
def zshQuotedEsc (l : List Char) : List Char :=
  sqRepl (stripCrNotLf (filter4 l))

/-- Modelled from the spec: Bash's quote-mode escape (`src/unix/bash.js` is
not under `src/`): double every embedded single quote. -/
def bashQuotedEsc (l : List Char) : List Char :=
  sqRepl (stripCrNotLf (filter4 l))

/-- csh's quote-mode escape (`src/unix/csh.js`, `escapeArgForQuoted`). -/
def cshQuotedEsc (l : List Char) : List Char :=
  escBang (fixTrailBsBang (sqRepl (nlToSp (filter5 l))))

/-- Wrap in single quotes. -/
def sqWrap (l : List Char) : List Char :=
  sqC :: l ++ [sqC]

/-- CMD's quote-mode escape (`src/win/cmd.js`, `escapeArgForQuoted`):
the escape function followed by `(?<!\\)(\\*)([\t ]) -> $1$1$2`. -/
def cmdQuotedEsc (l : List Char) : List Char :=
  bsRunT tabSp (fun n c => List.replicate (2 * n) bslC ++ [c]) (cmdEscape l) 0

/-- CMD's quoting function (`src/win/cmd.js`, `quoteArg`): wrap each run of
tabs and spaces in double quotes.  The Boolean records whether the previous
character was part of such a run. -/
def cmdQuoteArg : Bool → List Char → List Char
  | b, [] => if b then [dqC] else []
  | b, c :: rest =>
    if tabSp c then
      if b then c :: cmdQuoteArg true rest
      else dqC :: c :: cmdQuoteArg true rest
    else
      if b then dqC :: c :: cmdQuoteArg false rest
      else c :: cmdQuoteArg false rest

/-- PowerShell's quote-mode escape (`src/win/powershell.js`,
`escapeArgForQuoted`). -/
def psQuotedEsc (l : List Char) : List Char :=
  let a := replEach (fun c => if psQuotedSq c then [c, c] else [c])
    (stripCrNotLf (filter4 l))
  if a.any (fun c => isPsWs c) then
    dblTrailBs
      (bsRunT (fun c => c = dqC)
        (fun n _ => List.replicate (2 * n) bslC ++ [dqC, dqC]) a 0)
  else
    bsRunT (fun c => c = dqC)
      (fun n _ => List.replicate (2 * n) bslC ++ [bslC, dqC]) a 0

/-! ### Flag-protection functions

Each models the dialect's `stripFlagPrefix`. -/

/-- The Unix dialects' flag protection: `.replace(/^-+/gu, "")`, removal of
the maximal leading dash run. -/
def unixStripFlag (l : List Char) : List Char :=
  l.dropWhile (fun c => c = '-')

/-- CMD's flag protection: removal of the maximal leading dash run or the
maximal leading slash run, `.replace(/^(?:-+|\/+)/gu, "")`. -/
def cmdStripFlag : List Char → List Char
  | [] => []
  | c :: rest =>
    if c = '-' then rest.dropWhile (fun d => d = '-')
    else if c = '/' then rest.dropWhile (fun d => d = '/')
    else c :: rest

/-- PowerShell's flag protection: like CMD's but the dash run may be
preceded by a single backtick, the replacement of a leading
backtick-optional dash run or slash run by nothing,
`.replace(/^(?:` + "backtick" + `?-+|\/+)/gu, "")`. -/
def psStripFlag : List Char → List Char
  | [] => []
  | [c] =>
    if c = '-' then []
    else if c = '/' then []
    else [c]
  | c :: d :: rest =>
    if c = '-' then (d :: rest).dropWhile (fun e => e = '-')
    else if c = '/' then (d :: rest).dropWhile (fun e => e = '/')
    else if c = bkC && d = '-' then rest.dropWhile (fun e => e = '-')
    else c :: d :: rest

/-! ### Errors and shell identities -/

/-- A shell identity: a concrete shell name or the distinguished no-shell
value (the `noShell` symbol of `src/options.js`). -/
inductive ShellName where
  | noShell
  | name (s : String)
deriving DecidableEq, Repr

/-- The errors the library can raise. -/
inductive SErr where
  | typeErr
  | notFound (executable : String)
  | unsupportedShell (shellName : ShellName)
  | quotingUnsupported
  | missingFunction
deriving DecidableEq, Repr

/-- A pair of a quote-mode escape function and a wrapping function, both of
which may fail (`getQuoteFunction` of the dialect modules). -/
def QuotePair : Type :=
  (List Char → Except SErr (List Char)) × (List Char → Except SErr (List Char))

/-- The always-failing function of the no-shell modules (`unsupported`). -/
def noshUnsupported : List Char → Except SErr (List Char) :=
  fun _ => Except.error SErr.quotingUnsupported

/-! ### The dialect table -/

/-- The supported dialects: the four Unix shells, the two Windows shells and
the no-shell passthrough strategy. -/
inductive Dialect where
  | bash
  | dash
  | zsh
  | csh
  | noShell
  | cmd
  | powershell
deriving DecidableEq, Repr

/-- The escape function of each dialect. -/
def escapeFn : Dialect → List Char → List Char
  | .bash => bashEscape
  | .dash => dashEscape
  | .zsh => zshEscape
  | .csh => cshEscape
  | .noShell => noshEscape
  | .cmd => cmdEscape
  | .powershell => psEscape

/-- The flag-protection function of each dialect. -/
def flagFn : Dialect → List Char → List Char
  | .bash => unixStripFlag
  | .dash => unixStripFlag
  | .zsh => unixStripFlag
  | .csh => unixStripFlag
  | .noShell => unixStripFlag
  | .cmd => cmdStripFlag
  | .powershell => psStripFlag

/-- The quote function pair of each dialect. -/
def quotePairFn : Dialect → QuotePair
  | .bash => (fun l => Except.ok (bashQuotedEsc l), fun l => Except.ok (sqWrap l))
  | .dash => (fun l => Except.ok (dashQuotedEsc l), fun l => Except.ok (sqWrap l))
  | .zsh => (fun l => Except.ok (zshQuotedEsc l), fun l => Except.ok (sqWrap l))
  | .csh => (fun l => Except.ok (cshQuotedEsc l), fun l => Except.ok (sqWrap l))
  | .noShell => (noshUnsupported, noshUnsupported)
  | .cmd => (fun l => Except.ok (cmdQuotedEsc l), fun l => Except.ok (cmdQuoteArg false l))
  | .powershell => (fun l => Except.ok (psQuotedEsc l), fun l => Except.ok (sqWrap l))

/-- The escape pipeline of the `Shescape` constructor: the dialect escape
function followed, when flag protection is enabled, by the dialect's
flag-protection function. -/
def escapeTop (d : Dialect) (fp : Bool) (l : List Char) : List Char :=
  if fp then flagFn d (escapeFn d l) else escapeFn d l

/-! ### Characters the escape functions may never emit -/

/-- A character distinct from NUL, backspace, ESC and CSI. -/
def goodChar (c : Char) : Bool :=
  !(c = nulC || c = bsC || c = escC || c = csiC)

theorem mem_escSet {S : Char → Bool} {e x : Char} {l : List Char}
    (h : x ∈ escSet S e l) : x ∈ l ∨ x = e := by
  obtain ⟨a, ha, hx⟩ := mem_replEach h
  by_cases hs : S a = true
  · rw [if_pos hs] at hx
    simp only [List.mem_cons, List.not_mem_nil, or_false] at hx
    rcases hx with hx | hx
    · right; exact hx
    · subst hx; left; exact ha
  · rw [if_neg hs] at hx
    simp only [List.mem_singleton] at hx
    left; simpa [hx] using ha

theorem mem_dupBsl {x : Char} {l : List Char} (h : x ∈ dupBsl l) :
    x ∈ l ∨ x = bslC := by
  obtain ⟨a, ha, hx⟩ := mem_replEach h
  by_cases hs : a = bslC
  · rw [if_pos hs] at hx
    right
    simp only [List.mem_cons, List.not_mem_nil, or_false] at hx
    rcases hx with hx | hx <;> exact hx
  · rw [if_neg hs] at hx
    simp only [List.mem_singleton] at hx
    left; simpa [hx] using ha

theorem mem_dupBk {x : Char} {l : List Char} (h : x ∈ dupBk l) :
    x ∈ l ∨ x = bkC := by
  obtain ⟨a, ha, hx⟩ := mem_replEach h
  by_cases hs : a = bkC
  · rw [if_pos hs] at hx
    right
    simp only [List.mem_cons, List.not_mem_nil, or_false] at hx
    rcases hx with hx | hx <;> exact hx
  · rw [if_neg hs] at hx
    simp only [List.mem_singleton] at hx
    left; simpa [hx] using ha

theorem mem_nlToSp {x : Char} {l : List Char} (h : x ∈ nlToSp l) :
    x ∈ l ∨ x = ' ' := by
  obtain ⟨a, ha, hx⟩ := mem_replEach h
  by_cases hs : a = lfC
  · rw [if_pos hs] at hx
    simp only [List.mem_singleton] at hx
    right; exact hx
  · rw [if_neg hs] at hx
    simp only [List.mem_singleton] at hx
    subst hx; left; exact ha

theorem mem_sqRepl {x : Char} {l : List Char} (h : x ∈ sqRepl l) :
    x ∈ l ∨ x = bslC ∨ x = sqC := by
  obtain ⟨a, ha, hx⟩ := mem_replEach h
  by_cases hs : a = sqC
  · rw [if_pos hs] at hx
    simp only [List.mem_cons, List.not_mem_nil, or_false] at hx
    rcases hx with hx | hx | hx | hx
    · right; right; exact hx
    · right; left; exact hx
    · right; right; exact hx
    · right; right; exact hx
  · rw [if_neg hs] at hx
    simp only [List.mem_singleton] at hx
    subst hx; left; exact ha

theorem mem_cshA0 {x : Char} {l : List Char} (h : x ∈ cshA0 l) :
    x ∈ l ∨ x = sqC := by
  obtain ⟨a, ha, hx⟩ := mem_replEach h
  by_cases hs : (utf8Bytes a).contains 160 = true
  · rw [if_pos hs] at hx
    simp only [List.mem_cons, List.not_mem_nil, or_false] at hx
    rcases hx with hx | hx | hx
    · right; exact hx
    · subst hx; left; exact ha
    · right; exact hx
  · rw [if_neg hs] at hx
    simp only [List.mem_singleton] at hx
    subst hx; left; exact ha

theorem good_of_mem_filter5 {x : Char} {l : List Char} (h : x ∈ filter5 l) :
    goodChar x = true := by
  obtain ⟨a, ha, hx⟩ := mem_replEach h
  by_cases hs : ctl5 a = true
  · simp [hs] at hx
  · rw [if_neg hs] at hx
    simp only [List.mem_singleton] at hx
    subst hx
    simp only [ctl5, Bool.or_eq_true, not_or, decide_eq_true_eq] at hs
    push_neg at hs
    simp only [goodChar, Bool.or_eq_true, decide_eq_true_eq]
    simp only [Bool.not_eq_true']
    simp only [Bool.or_eq_false_iff, decide_eq_false_iff_not]
    refine ⟨⟨⟨?_, ?_⟩, ?_⟩, ?_⟩ <;> tauto

theorem good_of_mem_filter4 {x : Char} {l : List Char} (h : x ∈ filter4 l) :
    goodChar x = true := by
  obtain ⟨a, ha, hx⟩ := mem_replEach h
  by_cases hs : ctl4 a = true
  · simp [hs] at hx
  · rw [if_neg hs] at hx
    simp only [List.mem_singleton] at hx
    subst hx
    simp only [ctl4, Bool.or_eq_true, decide_eq_true_eq] at hs
    push_neg at hs
    simp only [goodChar, Bool.or_eq_true, decide_eq_true_eq]
    simp only [Bool.not_eq_true']
    simp only [Bool.or_eq_false_iff, decide_eq_false_iff_not]
    refine ⟨⟨⟨?_, ?_⟩, ?_⟩, ?_⟩ <;> tauto

theorem mem_escTildeColonEq {x : Char} :
    ∀ (l : List Char), x ∈ escTildeColonEq l → x ∈ l ∨ x = bslC := by
  intro l
  induction l with
  | nil => intro h; simp [escTildeColonEq] at h
  | cons c rest ih =>
    intro h
    simp only [escTildeColonEq] at h
    split at h
    · rename_i hcond
      have hc : c = '~' := of_decide_eq_true ((Bool.and_eq_true _ _).mp hcond).1
      simp only [List.mem_cons] at h
      rcases h with h | h | h
      · right; exact h
      · left; simp [h, hc]
      · rcases ih h with h2 | h2
        · left; exact List.mem_cons_of_mem c h2
        · right; exact h2
    · simp only [List.mem_cons] at h
      rcases h with h | h
      · left; simp [h]
      · rcases ih h with h2 | h2
        · left; exact List.mem_cons_of_mem c h2
        · right; exact h2

/-! ### The escape functions never emit the stripped control characters -/

theorem good_dashEscape (l : List Char) : ∀ x ∈ dashEscape l, goodChar x = true := by
  intro x hx
  unfold dashEscape at hx
  rcases mem_escSet hx with hx | rfl
  · rcases mem_escSet hx with hx | rfl
    · rcases mem_escAfterB _ _ hx with hx | rfl
      · rcases mem_dupBsl hx with hx | rfl
        · rcases mem_nlToSp hx with hx | rfl
          · exact good_of_mem_filter5 hx
          · decide
        · decide
      · decide
    · decide
  · decide

theorem good_zshEscape (l : List Char) : ∀ x ∈ zshEscape l, goodChar x = true := by
  intro x hx
  unfold zshEscape at hx
  rcases mem_escSet hx with hx | rfl
  · rcases mem_escSet hx with hx | rfl
    · rcases mem_escAfterB _ _ hx with hx | rfl
      · rcases mem_dupBsl hx with hx | rfl
        · rcases mem_nlToSp hx with hx | rfl
          · exact good_of_mem_filter5 hx
          · decide
        · decide
      · decide
    · decide
  · decide

theorem good_cshEscape (l : List Char) : ∀ x ∈ cshEscape l, goodChar x = true := by
  intro x hx
  unfold cshEscape at hx
  rcases mem_cshA0 hx with hx | rfl
  · rcases mem_escSet hx with hx | rfl
    · rcases mem_escSet hx with hx | rfl
      · rcases mem_escBang _ hx with hx | rfl
        · rcases mem_escAfterB _ _ hx with hx | rfl
          · rcases mem_dupBsl hx with hx | rfl
            · rcases mem_nlToSp hx with hx | rfl
              · exact good_of_mem_filter5 hx
              · decide
            · decide
          · decide
        · decide
      · decide
    · decide
  · decide

theorem good_noshEscape (l : List Char) : ∀ x ∈ noshEscape l, goodChar x = true := by
  intro x hx
  unfold noshEscape at hx
  exact good_of_mem_filter4 (mem_stripCrNotLf hx)

theorem good_bashEscape (l : List Char) : ∀ x ∈ bashEscape l, goodChar x = true := by
  intro x hx
  unfold bashEscape at hx
  rcases mem_escTildeColonEq _ hx with hx | rfl
  · rcases mem_escSet hx with hx | rfl
    · rcases mem_escAfterB _ _ hx with hx | rfl
      · rcases mem_dupBsl hx with hx | rfl
        · rcases mem_nlToSp hx with hx | rfl
          · exact good_of_mem_filter4 (mem_stripCrNotLf hx)
          · decide
        · decide
      · decide
    · decide
  · decide

theorem good_cmdEscape (l : List Char) : ∀ x ∈ cmdEscape l, goodChar x = true := by
  intro x hx
  unfold cmdEscape at hx
  have hq : ∀ (n : Nat) (c : Char), (decide (c = dqC)) = true →
      ∀ y ∈ List.replicate (2 * n) bslC ++ [bslC, dqC], y ∈ [bslC, dqC] := by
    intro n c _ y hy
    rcases List.mem_append.mp hy with hy | hy
    · have := List.eq_of_mem_replicate hy
      simp [this]
    · exact hy
  rcases mem_cmdToggle _ _ hx with hx | rfl
  · rcases mem_bsRunT hq _ _ hx with hx | rfl | hx
    · rcases mem_nlToSp hx with hx | rfl
      · exact good_of_mem_filter5 hx
      · decide
    · decide
    · simp only [List.mem_cons, List.not_mem_nil, or_false] at hx
      rcases hx with rfl | rfl <;> decide
  · decide

theorem good_psEscapePre (l : List Char) : ∀ x ∈ psEscapePre l, goodChar x = true := by
  intro x hx
  unfold psEscapePre at hx
  rcases mem_escSet hx with hx | rfl
  · rcases mem_escAfterB _ _ hx with hx | rfl
    · rcases mem_psGt _ _ hx with hx | rfl
      · rcases mem_dupBk hx with hx | rfl
        · rcases mem_nlToSp hx with hx | rfl
          · exact good_of_mem_filter5 hx
          · decide
        · decide
      · decide
    · decide
  · decide

theorem good_psEscape (l : List Char) : ∀ x ∈ psEscape l, goodChar x = true := by
  intro x hx
  unfold psEscape at hx
  have hq : ∀ (n : Nat) (c : Char), (decide (c = dqC)) = true →
      ∀ y ∈ List.replicate (2 * n) bslC ++ [bkC, dqC, bkC, dqC], y ∈ [bslC, bkC, dqC] := by
    intro n c _ y hy
    rcases List.mem_append.mp hy with hy | hy
    · have := List.eq_of_mem_replicate hy
      simp [this]
    · simp only [List.mem_cons, List.not_mem_nil, or_false] at hy
      rcases hy with rfl | rfl | rfl | rfl <;> simp
  have hq2 : ∀ (n : Nat) (c : Char), (decide (c = dqC)) = true →
      ∀ y ∈ List.replicate (2 * n) bslC ++ [bslC, bkC, dqC], y ∈ [bslC, bkC, dqC] := by
    intro n c _ y hy
    rcases List.mem_append.mp hy with hy | hy
    · have := List.eq_of_mem_replicate hy
      simp [this]
    · exact hy
  rcases mem_escSet hx with hx | rfl
  · split at hx
    · rcases mem_dblTrailBs hx with hx | rfl
      · rcases mem_bsRunT hq _ _ hx with hx | rfl | hx
        · exact good_psEscapePre l x hx
        · decide
        · simp only [List.mem_cons, List.not_mem_nil, or_false] at hx
          rcases hx with rfl | rfl | rfl <;> decide
      · decide
    · rcases mem_bsRunT hq2 _ _ hx with hx | rfl | hx
      · exact good_psEscapePre l x hx
      · decide
      · simp only [List.mem_cons, List.not_mem_nil, or_false] at hx
        rcases hx with rfl | rfl | rfl <;> decide
  · decide

/-- Every dialect's escape function never emits the stripped control
characters. -/
theorem good_escapeFn (d : Dialect) (l : List Char) :
    ∀ x ∈ escapeFn d l, goodChar x = true := by
  cases d with
  | bash => exact good_bashEscape l
  | dash => exact good_dashEscape l
  | zsh => exact good_zshEscape l
  | csh => exact good_cshEscape l
  | noShell => exact good_noshEscape l
  | cmd => exact good_cmdEscape l
  | powershell => exact good_psEscape l

/-! ### The escape functions preserve a leading run of dashes (or slashes)

These decompositions drive the flag-protection claim: a leading run of `k`
dashes survives every replacement pass unchanged (for PowerShell the first
dash additionally receives a backtick). -/

theorem filter5_rep {c : Char} (hc : ctl5 c = false) (k : Nat) (t : List Char) :
    filter5 (List.replicate k c ++ t) = List.replicate k c ++ filter5 t := by
  unfold filter5
  exact replEach_replicate_append (by simp [hc]) k t

theorem filter4_rep {c : Char} (hc : ctl4 c = false) (k : Nat) (t : List Char) :
    filter4 (List.replicate k c ++ t) = List.replicate k c ++ filter4 t := by
  unfold filter4
  exact replEach_replicate_append (by simp [hc]) k t

theorem nlToSp_rep {c : Char} (hc : c ≠ lfC) (k : Nat) (t : List Char) :
    nlToSp (List.replicate k c ++ t) = List.replicate k c ++ nlToSp t := by
  unfold nlToSp
  exact replEach_replicate_append (by simp [hc]) k t

theorem dupBsl_rep {c : Char} (hc : c ≠ bslC) (k : Nat) (t : List Char) :
    dupBsl (List.replicate k c ++ t) = List.replicate k c ++ dupBsl t := by
  unfold dupBsl
  exact replEach_replicate_append (by simp [hc]) k t

theorem dupBk_rep {c : Char} (hc : c ≠ bkC) (k : Nat) (t : List Char) :
    dupBk (List.replicate k c ++ t) = List.replicate k c ++ dupBk t := by
  unfold dupBk
  exact replEach_replicate_append (by simp [hc]) k t

theorem escSet_cons_unsel {S : Char → Bool} {e c : Char} (hc : S c = false)
    (l : List Char) : escSet S e (c :: l) = c :: escSet S e l := by
  unfold escSet
  rw [replEach_cons]
  simp [hc]

theorem escSet_rep {S : Char → Bool} {e c : Char} (hc : S c = false)
    (k : Nat) (t : List Char) :
    escSet S e (List.replicate k c ++ t) = List.replicate k c ++ escSet S e t := by
  unfold escSet
  exact replEach_replicate_append (by simp [hc]) k t

theorem cshA0_rep {c : Char} (hc : (utf8Bytes c).contains 160 = false)
    (k : Nat) (t : List Char) :
    cshA0 (List.replicate k c ++ t) = List.replicate k c ++ cshA0 t := by
  unfold cshA0
  exact replEach_replicate_append (by rw [hc]; simp) k t

theorem escTildeColonEq_cons_ne {c : Char} (hc : c ≠ '~') (l : List Char) :
    escTildeColonEq (c :: l) = c :: escTildeColonEq l := by
  simp [escTildeColonEq, hc]

theorem escTildeColonEq_rep {c : Char} (hc : c ≠ '~') (k : Nat) (t : List Char) :
    escTildeColonEq (List.replicate k c ++ t) =
      List.replicate k c ++ escTildeColonEq t := by
  induction k with
  | zero => simp
  | succ n ih => simp [List.replicate_succ, escTildeColonEq_cons_ne hc, ih]

theorem escAfterB_cons_sel_none {ws sel : Char → Bool} {e c : Char}
    (hc : sel c = true) (l : List Char) :
    escAfterB ws sel e none (c :: l) = e :: c :: escAfterB ws sel e (some c) l := by
  simp [escAfterB, atBoundary, hc]

theorem escAfterB_rep_noWs {ws sel : Char → Bool} {e c : Char}
    (hw : ws c = false) (k : Nat) (t : List Char) :
    escAfterB ws sel e (some c) (List.replicate k c ++ t) =
      List.replicate k c ++ escAfterB ws sel e (some c) t := by
  induction k with
  | zero => simp
  | succ n ih =>
    have step : ∀ l : List Char,
        escAfterB ws sel e (some c) (c :: l) = c :: escAfterB ws sel e (some c) l := by
      intro l
      simp [escAfterB, atBoundary, hw]
    simp [List.replicate_succ, step, ih]

/-- The form a leading run of `k` dashes takes in the escaped output of each
dialect: the run itself, with a single leading backtick for PowerShell. -/
def flagRunForm (d : Dialect) (k : Nat) : List Char :=
  match d with
  | .powershell => bkC :: List.replicate k '-'
  | _ => List.replicate k '-'

theorem dashEscape_run (k : Nat) (t : List Char) :
    ∃ r, dashEscape (List.replicate (k + 1) '-' ++ t) =
      List.replicate (k + 1) '-' ++ r := by
  unfold dashEscape
  rw [filter5_rep (by decide), nlToSp_rep (by decide), dupBsl_rep (by decide),
    escAfterB_replicate_unsel (by decide), escSet_rep (by decide),
    escSet_rep (by decide)]
  exact ⟨_, rfl⟩

theorem zshEscape_run (k : Nat) (t : List Char) :
    ∃ r, zshEscape (List.replicate (k + 1) '-' ++ t) =
      List.replicate (k + 1) '-' ++ r := by
  unfold zshEscape
  rw [filter5_rep (by decide), nlToSp_rep (by decide), dupBsl_rep (by decide),
    escAfterB_replicate_unsel (by decide), escSet_rep (by decide),
    escSet_rep (by decide)]
  exact ⟨_, rfl⟩

theorem cshEscape_run (k : Nat) (t : List Char) :
    ∃ r, cshEscape (List.replicate (k + 1) '-' ++ t) =
      List.replicate (k + 1) '-' ++ r := by
  unfold cshEscape
  rw [filter5_rep (by decide), nlToSp_rep (by decide), dupBsl_rep (by decide),
    escAfterB_replicate_unsel (by decide), escBang_replicate_append (by decide),
    escSet_rep (by decide), escSet_rep (by decide), cshA0_rep (by decide)]
  exact ⟨_, rfl⟩

theorem bashEscape_run (k : Nat) (t : List Char) :
    ∃ r, bashEscape (List.replicate (k + 1) '-' ++ t) =
      List.replicate (k + 1) '-' ++ r := by
  unfold bashEscape
  rw [filter4_rep (by decide), stripCrNotLf_replicate (by decide),
    nlToSp_rep (by decide), dupBsl_rep (by decide),
    escAfterB_replicate_unsel (by decide), escSet_rep (by decide),
    escTildeColonEq_rep (by decide)]
  exact ⟨_, rfl⟩

theorem noshEscape_run (k : Nat) (t : List Char) :
    ∃ r, noshEscape (List.replicate (k + 1) '-' ++ t) =
      List.replicate (k + 1) '-' ++ r := by
  unfold noshEscape
  rw [filter4_rep (by decide), stripCrNotLf_replicate (by decide)]
  exact ⟨_, rfl⟩

theorem cmdEscape_run (k : Nat) (t : List Char) :
    ∃ r, cmdEscape (List.replicate (k + 1) '-' ++ t) =
      List.replicate (k + 1) '-' ++ r := by
  unfold cmdEscape
  rw [filter5_rep (by decide), nlToSp_rep (by decide),
    bsRunT_replicate (by decide) (by decide),
    cmdToggle_replicate (by decide) (by decide)]
  exact ⟨_, rfl⟩

theorem cmdEscape_slash_run (k : Nat) (t : List Char) :
    ∃ r, cmdEscape (List.replicate (k + 1) '/' ++ t) =
      List.replicate (k + 1) '/' ++ r := by
  unfold cmdEscape
  rw [filter5_rep (by decide), nlToSp_rep (by decide),
    bsRunT_replicate (by decide) (by decide),
    cmdToggle_replicate (by decide) (by decide)]
  exact ⟨_, rfl⟩

theorem psEscapePre_run (k : Nat) (t : List Char) :
    ∃ r, psEscapePre (List.replicate (k + 1) '-' ++ t) =
      bkC :: List.replicate (k + 1) '-' ++ r := by
  unfold psEscapePre
  rw [filter5_rep (by decide), nlToSp_rep (by decide), dupBk_rep (by decide),
    psGt_replicate (by decide) (by decide)]
  rw [List.replicate_succ, List.cons_append, escAfterB_cons_sel_none (by decide),
    escAfterB_rep_noWs (by decide)]
  rw [escSet_cons_unsel (by decide), escSet_cons_unsel (by decide),
    escSet_rep (by decide)]
  exact ⟨_, rfl⟩

theorem psEscape_run (k : Nat) (t : List Char) :
    ∃ r, psEscape (List.replicate (k + 1) '-' ++ t) =
      bkC :: List.replicate (k + 1) '-' ++ r := by
  obtain ⟨r0, hr0⟩ := psEscapePre_run k t
  unfold psEscape
  rw [hr0]
  by_cases hcond :
      (((bkC :: List.replicate (k + 1) '-' ++ r0).dropWhile
        (fun c => isPsWs c)).any (fun c => isPsWs c)) = true
  · rw [if_pos hcond]
    rw [show (bkC :: List.replicate (k + 1) '-' ++ r0) =
      bkC :: (List.replicate (k + 1) '-' ++ r0) from rfl]
    rw [bsRunT_cons_plain (by decide) (by decide),
      bsRunT_replicate (by decide) (by decide)]
    unfold dblTrailBs
    rw [List.cons_append, List.append_assoc]
    rw [escSet_cons_unsel (by decide), escSet_rep (by decide)]
    exact ⟨_, rfl⟩
  · rw [if_neg hcond]
    rw [show (bkC :: List.replicate (k + 1) '-' ++ r0) =
      bkC :: (List.replicate (k + 1) '-' ++ r0) from rfl]
    rw [bsRunT_cons_plain (by decide) (by decide),
      bsRunT_replicate (by decide) (by decide)]
    rw [escSet_cons_unsel (by decide), escSet_rep (by decide)]
    exact ⟨_, rfl⟩

/-- The escaped output of each dialect keeps a leading dash run in the form
`flagRunForm`. -/
theorem escapeFn_run (d : Dialect) (k : Nat) (t : List Char) :
    ∃ r, escapeFn d (List.replicate (k + 1) '-' ++ t) =
      flagRunForm d (k + 1) ++ r := by
  cases d with
  | bash => exact bashEscape_run k t
  | dash => exact dashEscape_run k t
  | zsh => exact zshEscape_run k t
  | csh => exact cshEscape_run k t
  | noShell => exact noshEscape_run k t
  | cmd => exact cmdEscape_run k t
  | powershell =>
    obtain ⟨r, hr⟩ := psEscape_run k t
    exact ⟨r, by simpa [flagRunForm] using hr⟩

/-! ### Removal of a maximal leading run -/

theorem take_append_self (a b : List Char) : (a ++ b).take a.length = a := by
  induction a with
  | nil => simp
  | cons c r ih => simp [ih]

theorem dropWhile_head_ne (c : Char) (l : List Char) :
    (l.dropWhile (fun x => x = c)).head? ≠ some c := by
  induction l with
  | nil => simp
  | cons a rest ih =>
    by_cases ha : a = c
    · simpa [List.dropWhile, ha] using ih
    · simp [List.dropWhile, ha]

theorem dropWhile_rep (c : Char) (k : Nat) (t : List Char) :
    (List.replicate k c ++ t).dropWhile (fun x => x = c) =
      t.dropWhile (fun x => x = c) := by
  induction k with
  | zero => simp
  | succ n ih => simp [List.replicate_succ, List.dropWhile, ih]

theorem dropWhile_eq_self_of_head_ne {c : Char} {t : List Char}
    (h : t.head? ≠ some c) : t.dropWhile (fun x => x = c) = t := by
  cases t with
  | nil => rfl
  | cons a rest =>
    have ha : a ≠ c := by
      intro hac
      exact h (by simp [hac])
    simp [List.dropWhile, ha]

theorem cmdStripFlag_dash (l : List Char) :
    cmdStripFlag ('-' :: l) = l.dropWhile (fun d => d = '-') := rfl

theorem cmdStripFlag_slash (l : List Char) :
    cmdStripFlag ('/' :: l) = l.dropWhile (fun d => d = '/') := rfl

theorem psStripFlag_bk_dash (l : List Char) :
    psStripFlag (bkC :: '-' :: l) = l.dropWhile (fun e => e = '-') := rfl

/-- Claim C1: for every dialect and every string beginning with a run of `k`
dashes (or `k` slashes for the CMD dialect), escaping with flag protection
enabled equals the flag-protection strip of the plain escaped string; the
plain escaped string retains the whole run in escaped form (a backtick
precedes it for PowerShell); and the flag-protected result no longer starts
with the run character. -/
theorem claim1_flag_protection (d : Dialect) (k : Nat) (t : List Char)
    (hk : 1 ≤ k) :
    (escapeTop d true (List.replicate k '-' ++ t) =
        flagFn d (escapeTop d false (List.replicate k '-' ++ t)))
    ∧ ((escapeTop d false (List.replicate k '-' ++ t)).take
        (flagRunForm d k).length = flagRunForm d k)
    ∧ ((escapeTop d true (List.replicate k '-' ++ t)).head? ≠ some '-')
    ∧ (escapeTop Dialect.cmd true (List.replicate k '/' ++ t) =
        cmdStripFlag (escapeTop Dialect.cmd false (List.replicate k '/' ++ t)))
    ∧ ((escapeTop Dialect.cmd false (List.replicate k '/' ++ t)).take k =
        List.replicate k '/')
    ∧ ((escapeTop Dialect.cmd true (List.replicate k '/' ++ t)).head? ≠
        some '/') := by
  obtain ⟨m, rfl⟩ : ∃ m, k = m + 1 := ⟨k - 1, by omega⟩
  refine ⟨by simp [escapeTop], ?_, ?_, by simp [escapeTop, flagFn], ?_, ?_⟩
  · obtain ⟨r, hr⟩ := escapeFn_run d m t
    simp only [escapeTop, Bool.false_eq_true, if_false]
    rw [hr, take_append_self]
  · simp only [escapeTop, if_pos rfl]
    obtain ⟨r, hr⟩ := escapeFn_run d m t
    rw [hr]
    cases d with
    | bash => exact dropWhile_head_ne '-' _
    | dash => exact dropWhile_head_ne '-' _
    | zsh => exact dropWhile_head_ne '-' _
    | csh => exact dropWhile_head_ne '-' _
    | noShell => exact dropWhile_head_ne '-' _
    | cmd =>
      show (cmdStripFlag (List.replicate (m + 1) '-' ++ r)).head? ≠ some '-'
      rw [List.replicate_succ, List.cons_append, cmdStripFlag_dash]
      exact dropWhile_head_ne '-' _
    | powershell =>
      show (psStripFlag ((bkC :: List.replicate (m + 1) '-') ++ r)).head? ≠ some '-'
      rw [List.replicate_succ]
      rw [show ((bkC :: '-' :: List.replicate m '-') ++ r) =
        bkC :: '-' :: (List.replicate m '-' ++ r) from by simp]
      rw [psStripFlag_bk_dash]
      exact dropWhile_head_ne '-' _
  · obtain ⟨r, hr⟩ := cmdEscape_slash_run m t
    simp only [escapeTop, Bool.false_eq_true, if_false, escapeFn]
    rw [hr]
    have h2 := take_append_self (List.replicate (m + 1) '/') r
    rw [List.length_replicate] at h2
    exact h2
  · obtain ⟨r, hr⟩ := cmdEscape_slash_run m t
    simp only [escapeTop, if_pos rfl, escapeFn, flagFn]
    rw [hr, List.replicate_succ, List.cons_append, cmdStripFlag_slash]
    exact dropWhile_head_ne '/' _

/-! ### Idempotence of control-character removal (claim C3) -/

theorem ctl5_of_mem_filter5 {x : Char} {l : List Char} (h : x ∈ filter5 l) :
    ctl5 x = false := by
  obtain ⟨a, ha, hx⟩ := mem_replEach h
  by_cases hs : ctl5 a = true
  · simp [hs] at hx
  · rw [if_neg hs] at hx
    simp only [List.mem_singleton] at hx
    subst hx
    simpa using hs

theorem ctl4_of_mem_filter4 {x : Char} {l : List Char} (h : x ∈ filter4 l) :
    ctl4 x = false := by
  obtain ⟨a, ha, hx⟩ := mem_replEach h
  by_cases hs : ctl4 a = true
  · simp [hs] at hx
  · rw [if_neg hs] at hx
    simp only [List.mem_singleton] at hx
    subst hx
    simpa using hs

theorem replEach_eq_self {f : Char → List Char} :
    ∀ {l : List Char}, (∀ c ∈ l, f c = [c]) → replEach f l = l := by
  intro l
  induction l with
  | nil => intro _; rfl
  | cons c rest ih =>
    intro h
    rw [replEach_cons, h c (List.mem_cons_self c rest),
      ih (fun d hd => h d (List.mem_cons_of_mem c hd))]
    rfl

theorem filter5_idem (l : List Char) : filter5 (filter5 l) = filter5 l := by
  conv_lhs => rw [filter5]
  exact replEach_eq_self (fun c hc => by
    rw [if_neg (by simp [ctl5_of_mem_filter5 hc])])

theorem filter4_idem_on_stripCr (l : List Char) :
    filter4 (stripCrNotLf (filter4 l)) = stripCrNotLf (filter4 l) := by
  conv_lhs => rw [filter4]
  exact replEach_eq_self (fun c hc => by
    rw [if_neg (by simp [ctl4_of_mem_filter4 (mem_stripCrNotLf hc)])])

theorem noshEscape_idem (l : List Char) :
    noshEscape (noshEscape l) = noshEscape l := by
  show stripCrNotLf (filter4 (stripCrNotLf (filter4 l))) = noshEscape l
  rw [filter4_idem_on_stripCr, stripCrNotLf_idem]
  rfl

/-- Claim C3: no dialect's escape function ever emits NUL, backspace, ESC or
the U+009B control code, and the control-character removal transforms (the
five-character class filter and the no-shell removal, which also drops bare
carriage returns) are idempotent. -/
theorem claim3_control_characters (d : Dialect) (s l : List Char) :
    ((escapeFn d s).all goodChar = true)
    ∧ (filter5 (filter5 l) = filter5 l)
    ∧ (noshEscape (noshEscape l) = noshEscape l) := by
  refine ⟨?_, filter5_idem l, noshEscape_idem l⟩
  exact List.all_eq_true.mpr (fun x hx => good_escapeFn d s x hx)

/-! ### The array and scalar forms of escapeAll (claim C4) -/

/-- The values `escapeAll` accepts: a single (stringified) value or an array
of values. -/
inductive ArgsVal where
  | single (s : List Char)
  | arr (l : List (List Char))

/-- `toArrayIfNecessary` (`src/reflection.js`): wrap a non-array value in a
single-element array, return an array unchanged. -/
def toArrayIfNecessary : ArgsVal → List (List Char)
  | .single s => [s]
  | .arr l => l

/-- The v1 `escapeAll` shape (`index.js`, function API): coerce a non-array
argument to a one-element array, then escape every element in order. -/
def escapeAllCompat (d : Dialect) (fp : Bool) (v : ArgsVal) : List (List Char) :=
  (toArrayIfNecessary v).map (escapeTop d fp)

/-- The v2 `Shescape.escapeAll` (`index.js`): map escape over the arguments. -/
def shescapeEscapeAll (d : Dialect) (fp : Bool) (l : List (List Char)) :
    List (List Char) :=
  l.map (escapeTop d fp)

/-- Claim C4: `escapeAll` on a non-sequence value equals `escapeAll` on the
corresponding one-element sequence, which equals the one-element list of the
escaped value; and `escapeAll` maps `escape` elementwise, preserving order
and length. -/
theorem claim4_escapeAll_map (d : Dialect) (fp : Bool) (x : List Char)
    (l : List (List Char)) (i : Nat) :
    (escapeAllCompat d fp (ArgsVal.single x) = escapeAllCompat d fp (ArgsVal.arr [x]))
    ∧ (escapeAllCompat d fp (ArgsVal.arr [x]) = [escapeTop d fp x])
    ∧ ((shescapeEscapeAll d fp l).length = l.length)
    ∧ ((shescapeEscapeAll d fp l)[i]? = (l[i]?).map (escapeTop d fp)) := by
  refine ⟨rfl, rfl, ?_, ?_⟩
  · simp [shescapeEscapeAll]
  · simp [shescapeEscapeAll, List.getElem?_map]

/-! ### The v1 Bash quoting scenario (claim C8) -/

/-- The v1 Bash escape function (`escapeArgBash`) restricted to
`interpolation = false`: strip NUL, and when the argument is being quoted
replace every single quote by the close-escape-reopen sequence. -/
def escapeArgBashV1NoInterp (quoted : Bool) (l : List Char) : List Char :=
  if quoted then sqRepl (replEach (fun c => if c = nulC then [] else [c]) l)
  else replEach (fun c => if c = nulC then [] else [c]) l

/-- The v1 quote pipeline for Bash (`quoteShellArg` of `src/main.js`:
escape with `interpolation = false, quoted = true`, then wrap in the Unix
quote characters). -/
def quoteShellArgBashV1 (l : List Char) : List Char :=
  sqWrap (escapeArgBashV1NoInterp true l)

/-- Claim C8: quoting the Bash-dialect input `it's` yields `'it'\''s'`. -/
theorem claim8_bash_quote_embedded_sq :
    quoteShellArgBashV1 ['i', 't', sqC, 's'] =
      [sqC, 'i', 't', sqC, bslC, sqC, sqC, 's', sqC] := by
  decide

/-! ### csh history-expansion end-of-string exemption (claim C9) -/

/-- Escape a single exclamation mark with a backslash. -/
def bangF (c : Char) : List Char :=
  if c = '!' then [bslC, '!'] else [c]

/-- The final character of a list as a (possibly empty) one-element list. -/
def lastOf (l : List Char) : List Char :=
  match l.getLast? with
  | some c => [c]
  | none => []

theorem escBang_eq (l : List Char) :
    escBang l = replEach bangF l.dropLast ++ lastOf l := by
  induction l with
  | nil => rfl
  | cons c rest ih =>
    cases rest with
    | nil =>
      simp [escBang, lastOf, replEach]
    | cons d rest2 =>
      have hdrop : (c :: d :: rest2).dropLast = c :: (d :: rest2).dropLast := by
        simp
      have hlast : lastOf (c :: d :: rest2) = lastOf (d :: rest2) := by
        simp [lastOf, List.getLast?_cons_cons]
      by_cases hc : c = '!'
      · subst hc
        rw [escBang_cons_bang, ih, hdrop, hlast, replEach_cons]
        simp [bangF]
      · rw [escBang_cons_ne hc, ih, hdrop, hlast, replEach_cons]
        simp [bangF, hc]

theorem lastOf_fixTrailBsBang (l : List Char) :
    lastOf (fixTrailBsBang l) = lastOf l := by
  unfold fixTrailBsBang
  split
  · rename_i b c rest hrev
    by_cases hbc : (decide (b = '!') && decide (c = bslC)) = true
    · rw [if_pos hbc]
      have hb : b = '!' := of_decide_eq_true ((Bool.and_eq_true _ _).mp hbc).1
      have h1 : lastOf (('!' :: bslC :: bslC :: rest).reverse) = ['!'] := by
        simp [lastOf, List.getLast?_reverse]
      have h2 : lastOf l = [b] := by
        have hh : l.getLast? = some b := by
          rw [← List.head?_reverse, hrev]
          rfl
        simp [lastOf, hh]
      rw [h1, h2, hb]
    · rw [if_neg hbc]
  · rfl

/-- Claim C9: in the csh dialect, the history-expansion pass escapes every
exclamation mark except one occurring as the very last character, in both
the escape function and the quote-mode escape function (whose bang pass runs
after the trailing backslash-bang adjustment, which preserves the final
character). -/
theorem claim9_csh_bang_exemption (l : List Char) :
    (escBang l = replEach bangF l.dropLast ++ lastOf l)
    ∧ (cshEscape l =
        cshA0 (escSet tabSp bslC (escSet cshClass bslC (escBang
          (escAfterB isJsWs (fun c => c = '~') bslC none
            (dupBsl (nlToSp (filter5 l))))))))
    ∧ (cshQuotedEsc l = escBang (fixTrailBsBang (sqRepl (nlToSp (filter5 l)))))
    ∧ (lastOf (fixTrailBsBang l) = lastOf l) :=
  ⟨escBang_eq l, rfl, rfl, lastOf_fixTrailBsBang l⟩

/-! ### PowerShell flag protection strips slash runs (claim C10) -/

theorem psStripFlag_slash (l : List Char) :
    psStripFlag ('/' :: l) = l.dropWhile (fun e => e = '/') := by
  cases l <;> rfl

theorem psStripFlag_dash (l : List Char) :
    psStripFlag ('-' :: l) = l.dropWhile (fun e => e = '-') := by
  cases l <;> rfl

/-- Claim C10: the PowerShell flag-protection function removes an entire
leading run of slashes, an entire leading run of dashes, and an entire
leading dash run preceded by a single backtick.  Every string beginning
with one or more slashes (respectively dashes) decomposes uniquely as its
maximal leading run followed by a tail not starting with that character, so
each conjunct carries only the maximality condition for its own run. -/
theorem claim10_psStripFlag_slash_run (k : Nat) (t : List Char) (hk : 1 ≤ k) :
    (t.head? ≠ some '/' → psStripFlag (List.replicate k '/' ++ t) = t)
    ∧ (t.head? ≠ some '-' → psStripFlag (List.replicate k '-' ++ t) = t)
    ∧ (t.head? ≠ some '-' → psStripFlag (bkC :: List.replicate k '-' ++ t) = t) := by
  obtain ⟨m, rfl⟩ : ∃ m, k = m + 1 := ⟨k - 1, by omega⟩
  refine ⟨?_, ?_, ?_⟩
  · intro hs
    rw [List.replicate_succ, List.cons_append, psStripFlag_slash,
      dropWhile_rep, dropWhile_eq_self_of_head_ne hs]
  · intro hd
    rw [List.replicate_succ, List.cons_append, psStripFlag_dash,
      dropWhile_rep, dropWhile_eq_self_of_head_ne hd]
  · intro hd
    rw [List.replicate_succ]
    rw [show (bkC :: ('-' :: List.replicate m '-') ++ t) =
      bkC :: '-' :: (List.replicate m '-' ++ t) from by simp]
    rw [psStripFlag_bk_dash, dropWhile_rep, dropWhile_eq_self_of_head_ne hd]

/-- Claim C10 witness: a two-slash run followed by a dash and a letter, and
concrete dash-run inputs with and without the leading backtick. -/
theorem claim10_psStripFlag_witness :
    1 ≤ 2
    ∧ ((['-', 'o'].head? ≠ some '/')
      ∧ psStripFlag (List.replicate 2 '/' ++ ['-', 'o']) = ['-', 'o'])
    ∧ ((['x'].head? ≠ some '-')
      ∧ psStripFlag (List.replicate 2 '-' ++ ['x']) = ['x'])
    ∧ ((['x'].head? ≠ some '-')
      ∧ psStripFlag (bkC :: List.replicate 2 '-' ++ ['x']) = ['x']) :=
  ⟨by decide,
    ⟨by decide,
      (claim10_psStripFlag_slash_run 2 ['-', 'o'] (by decide)).1 (by decide)⟩,
    ⟨by decide,
      (claim10_psStripFlag_slash_run 2 ['x'] (by decide)).2.1 (by decide)⟩,
    ⟨by decide,
      (claim10_psStripFlag_slash_run 2 ['x'] (by decide)).2.2 (by decide)⟩⟩

/-! ### Environment, executables and shell-name resolution -/

/-- An environment: a list of variable-value pairs.  `envGet` models the
own-property lookup `hasOwn(env, key) ? env[key] : undefined`. -/
abbrev Env := List (String × String)

def envGet (env : Env) (k : String) : Option String :=
  (env.find? (fun p => p.fst = k)).map (fun p => p.snd)

/-- `path.basename`: strip trailing separators, then keep the part after the
last separator. -/
def basenameBy (isSep : Char → Bool) (s : String) : String :=
  String.mk (((s.toList.reverse.dropWhile isSep).takeWhile
    (fun c => !(isSep c))).reverse)

/-- `path.basename` (POSIX). -/
def posixBasename (s : String) : String :=
  basenameBy (fun c => c = '/') s

/-- `path.win32.basename`. -/
def winBasename (s : String) : String :=
  basenameBy (fun c => c = '/' || c = bslC) s

/-- `String.prototype.toLowerCase` restricted to the alphabet of shell
names. -/
def strToLower (s : String) : String :=
  String.mk (s.toList.map Char.toLower)

/-- The filesystem-facing dependencies of `resolveExecutable`: `which`
(with an optional search path), an existence check, and `readlink` (which
fails when the file is not a link). -/
structure ExecDeps where
  whichF : String → Option String → Option String
  existsF : String → Bool
  readlinkF : String → Option String

/-- The search path: `env.PATH`, falling back to `env.Path`. -/
def envPath (env : Env) : Option String :=
  match envGet env "PATH" with
  | some p => some p
  | none => envGet env "Path"

/-- `resolveExecutable` (`src/executables.js`, strict variant): a failing
PATH lookup or a missing file raises a not-found error; a failing
`readlink` is swallowed and the resolved path is used as-is. -/
def resolveExecutable (env : Env) (executable : String) (d : ExecDeps) :
    Except SErr String :=
  match d.whichF executable (envPath env) with
  | none => Except.error (SErr.notFound executable)
  | some r =>
    if d.existsF r then
      match d.readlinkF r with
      | some link => Except.ok link
      | none => Except.ok r
    else Except.error (SErr.notFound executable)

/-! ### The Unix and Windows dialect lookup tables -/

/-- The Unix `getEscapeFunction` (`src/unix.js`): dispatch on the shell
name.  The no-shell branch is modelled from the spec (the spec's "no shell"
passthrough strategy, dispatching to the no-shell module of `src/unix/no-shell.js`);
the remaining branches are the source's switch. -/
def unixEscapeLookup : ShellName → Option (List Char → List Char)
  | ShellName.noShell => some noshEscape
  | ShellName.name s =>
    if s = "bash" then some bashEscape
    else if s = "csh" then some cshEscape
    else if s = "dash" then some dashEscape
    else if s = "zsh" then some zshEscape
    else none

/-- The Unix `getQuoteFunction` (`src/unix.js`); the no-shell branch is
modelled from the spec (quoting must fail without a shell). -/
def unixQuoteLookup : ShellName → Option QuotePair
  | ShellName.noShell => some (noshUnsupported, noshUnsupported)
  | ShellName.name s =>
    if s = "bash" then some (quotePairFn Dialect.bash)
    else if s = "csh" then some (quotePairFn Dialect.csh)
    else if s = "dash" then some (quotePairFn Dialect.dash)
    else if s = "zsh" then some (quotePairFn Dialect.zsh)
    else none

/-- The Unix `getFlagProtectionFunction` (`src/unix.js`): every Unix dialect
and the no-shell strategy strip a leading dash run. -/
def unixFlagLookup : ShellName → Option (List Char → List Char)
  | ShellName.noShell => some unixStripFlag
  | ShellName.name s =>
    if s = "bash" then some unixStripFlag
    else if s = "csh" then some unixStripFlag
    else if s = "dash" then some unixStripFlag
    else if s = "zsh" then some unixStripFlag
    else none

/-- Modelled from the spec: the Unix `isShellSupported` is not under `src/`;
per the spec a shell identity is usable exactly when it maps to a dialect
(mirroring the Windows module's implementation). -/
def isShellSupportedUnix (sn : ShellName) : Bool :=
  (unixEscapeLookup sn).isSome

/-- The Unix `getShellName` (`src/unix.js`): resolve, take the base name,
and fall back to Bash when the base name has no escape function. -/
def getShellNameUnix (env : Env) (shell : String) (d : ExecDeps) :
    Except SErr String :=
  (resolveExecutable env shell d).map (fun p =>
    if (unixEscapeLookup (ShellName.name (posixBasename p))).isSome then
      posixBasename p
    else "bash")

/-- The Unix `getDefaultShell` (`src/unix.js`). -/
def getDefaultShellUnix (_ : Env) : String := "/bin/sh"

/-- The Windows `getEscapeFunction` (`src/win.js`): the no-shell branch
(whose module `src/win/no-shell.js` is not under `src/` and is modelled from
the spec with the Unix no-shell code), then a case-insensitive dispatch on
the binary name. -/
def winEscapeLookup : ShellName → Option (List Char → List Char)
  | ShellName.noShell => some noshEscape
  | ShellName.name s =>
    if strToLower s = "cmd.exe" then some cmdEscape
    else if strToLower s = "powershell.exe" then some psEscape
    else none

/-- The Windows `getQuoteFunction` (`src/win.js`); the no-shell branch is
modelled from the spec. -/
def winQuoteLookup : ShellName → Option QuotePair
  | ShellName.noShell => some (noshUnsupported, noshUnsupported)
  | ShellName.name s =>
    if strToLower s = "cmd.exe" then some (quotePairFn Dialect.cmd)
    else if strToLower s = "powershell.exe" then some (quotePairFn Dialect.powershell)
    else none

/-- The Windows `getFlagProtectionFunction` (`src/win.js`); the no-shell
branch is modelled from the spec. -/
def winFlagLookup : ShellName → Option (List Char → List Char)
  | ShellName.noShell => some unixStripFlag
  | ShellName.name s =>
    if strToLower s = "cmd.exe" then some cmdStripFlag
    else if strToLower s = "powershell.exe" then some psStripFlag
    else none

/-- The Windows `isShellSupported` (`src/win.js`). -/
def isShellSupportedWin (sn : ShellName) : Bool :=
  (winEscapeLookup sn).isSome

/-- The Windows `getShellName` (`src/win.js`): resolve and take the base
name, with no fallback. -/
def getShellNameWin (env : Env) (shell : String) (d : ExecDeps) :
    Except SErr String :=
  (resolveExecutable env shell d).map winBasename

/-- The Windows `getDefaultShell` (`src/win.js`): `%ComSpec%` when present,
otherwise the command interpreter's name. -/
def getDefaultShellWin (env : Env) : String :=
  match envGet env "ComSpec" with
  | some v => v
  | none => "cmd.exe"

/-! ### Options parsing -/

/-- The `shell` option: a Boolean or a string. -/
inductive JSShellOpt where
  | bool (b : Bool)
  | str (s : String)
deriving DecidableEq, Repr

/-- The caller-supplied options; `none` models an absent property. -/
structure SOptions where
  flagProtection? : Option Bool
  shell? : Option JSShellOpt
deriving DecidableEq, Repr

/-- The resolved configuration of `parseOptions`. -/
structure SConfig where
  flagProtection : Bool
  shellName : ShellName
deriving DecidableEq, Repr

/-- The resolved flag-protection value:
`flagProtection === undefined ? true : flagProtection ? true : false`. -/
def fpOf (o : SOptions) : Bool :=
  match o.flagProtection? with
  | none => true
  | some b => b

/-- The dependencies `parseOptions` receives from the platform module. -/
structure POHelpers where
  getDefaultShell : Env → String
  getShellName : Env → String → ExecDeps → Except SErr String
  isShellSupported : ShellName → Bool

/-- `parseOptions` (`src/options.js`): flag protection defaults to enabled;
`shell: false` becomes the no-shell identity without consulting the
resolver; otherwise a non-string shell is replaced by the platform default
and the specifier is resolved to a shell name; an unsupported identity is a
configuration error. -/
def parseOptions (H : POHelpers) (env : Env) (o : SOptions) (fs : ExecDeps) :
    Except SErr SConfig :=
  match (match o.shell? with
    | some (JSShellOpt.bool false) => Except.ok ShellName.noShell
    | some (JSShellOpt.str s) => (H.getShellName env s fs).map ShellName.name
    | _ => (H.getShellName env (H.getDefaultShell env) fs).map ShellName.name) with
  | Except.error e => Except.error e
  | Except.ok sn =>
    if H.isShellSupported sn then Except.ok ⟨fpOf o, sn⟩
    else Except.error (SErr.unsupportedShell sn)

/-! ### Platform dispatch -/

/-- The two platform modules. -/
inductive PlatformModule where
  | win
  | unix
deriving DecidableEq, Repr

/-- The `OSTYPE` hint, read as an own property. -/
def osTypeOf (env : Env) : Option String :=
  envGet env "OSTYPE"

/-- `isWindow` (`src/platforms.js`). -/
def isWindow (env : Env) (platform : String) : Bool :=
  decide (osTypeOf env = some "cygwin") || decide (osTypeOf env = some "msys") ||
    decide (platform = "win32")

/-- `getHelpersByPlatform` (`src/platforms.js`). -/
def getHelpersByPlatform (env : Env) (platform : String) : PlatformModule :=
  if isWindow env platform then PlatformModule.win else PlatformModule.unix

/-- The `parseOptions` dependencies of each platform module. -/
def poHelpersOf : PlatformModule → POHelpers
  | PlatformModule.win => ⟨getDefaultShellWin, getShellNameWin, isShellSupportedWin⟩
  | PlatformModule.unix => ⟨getDefaultShellUnix, getShellNameUnix, isShellSupportedUnix⟩

/-- The escape-function table of each platform module. -/
def escapeLookupOf : PlatformModule → ShellName → Option (List Char → List Char)
  | PlatformModule.win => winEscapeLookup
  | PlatformModule.unix => unixEscapeLookup

/-- The quote-function table of each platform module. -/
def quoteLookupOf : PlatformModule → ShellName → Option QuotePair
  | PlatformModule.win => winQuoteLookup
  | PlatformModule.unix => unixQuoteLookup

/-- The flag-protection table of each platform module. -/
def flagLookupOf : PlatformModule → ShellName → Option (List Char → List Char)
  | PlatformModule.win => winFlagLookup
  | PlatformModule.unix => unixFlagLookup

/-! ### The Shescape constructor and its operations -/

/-- The state built by the `Shescape` constructor (`index.js`): the parsed
flag-protection setting and the three resolved dialect functions. -/
structure ShescapeCfg where
  flagProtection : Bool
  escF : List Char → List Char
  quoteP : QuotePair
  flagP : List Char → List Char

/-- The `Shescape` constructor (`index.js`): parse the options with the
platform helpers, then capture the dialect's escape, quote and
flag-protection functions. -/
def shescapeNew (pm : PlatformModule) (env : Env) (o : SOptions)
    (fs : ExecDeps) : Except SErr ShescapeCfg :=
  match parseOptions (poHelpersOf pm) env o fs with
  | Except.error e => Except.error e
  | Except.ok cfg =>
    match escapeLookupOf pm cfg.shellName, quoteLookupOf pm cfg.shellName,
        flagLookupOf pm cfg.shellName with
    | some esc, some qp, some fpf =>
      Except.ok ⟨cfg.flagProtection, esc, qp, fpf⟩
    | _, _, _ => Except.error SErr.missingFunction

/-- `Shescape.escape`: the dialect escape function followed by the
flag-protection strip when enabled. -/
def sEscape (c : ShescapeCfg) (arg : List Char) : List Char :=
  if c.flagProtection then c.flagP (c.escF arg) else c.escF arg

/-- `Shescape.quote`: quote-mode escape, optional flag protection, then
wrapping; each step may fail. -/
def sQuote (c : ShescapeCfg) (arg : List Char) : Except SErr (List Char) :=
  match c.quoteP.fst arg with
  | Except.error e => Except.error e
  | Except.ok e1 => c.quoteP.snd (if c.flagProtection then c.flagP e1 else e1)

/-- `Shescape.quoteAll`: `args.map(quote)`, with the first failure
propagated (the map stops at a thrown error). -/
def sQuoteAll (c : ShescapeCfg) : List (List Char) → Except SErr (List (List Char))
  | [] => Except.ok []
  | v :: rest =>
    match sQuote c v with
    | Except.error e => Except.error e
    | Except.ok q =>
      match sQuoteAll c rest with
      | Except.error e => Except.error e
      | Except.ok qs => Except.ok (q :: qs)

/-- Filesystem stand-in for concrete instantiations: every lookup succeeds
with the name itself, every file exists, nothing is a link. -/
def fakeFs : ExecDeps :=
  ⟨fun exe _ => some exe, fun _ => true, fun _ => none⟩

theorem parseOptions_shell_false (H : POHelpers) (env : Env) (o : SOptions)
    (fs : ExecDeps) (h : o.shell? = some (JSShellOpt.bool false)) :
    parseOptions H env o fs =
      if H.isShellSupported ShellName.noShell then
        Except.ok ⟨fpOf o, ShellName.noShell⟩
      else Except.error (SErr.unsupportedShell ShellName.noShell) := by
  unfold parseOptions
  rw [h]

theorem isShellSupportedWin_noShell : isShellSupportedWin ShellName.noShell = true := rfl

theorem isShellSupportedUnix_noShell : isShellSupportedUnix ShellName.noShell = true := rfl

/-- Claim C7: the Windows dialect table is selected exactly when the
platform is `win32` or the environment's own `OSTYPE` property is `cygwin`
or `msys`; otherwise the Unix table is selected; exactly one of the two is
returned. -/
theorem claim7_platform_dispatch (env : Env) (platform : String) :
    (getHelpersByPlatform env platform = PlatformModule.win ↔
      (platform = "win32" ∨ osTypeOf env = some "cygwin" ∨
        osTypeOf env = some "msys"))
    ∧ (getHelpersByPlatform env platform = PlatformModule.unix ↔
      ¬(platform = "win32" ∨ osTypeOf env = some "cygwin" ∨
        osTypeOf env = some "msys")) := by
  unfold getHelpersByPlatform isWindow
  by_cases h1 : osTypeOf env = some "cygwin" <;>
    by_cases h2 : osTypeOf env = some "msys" <;>
    by_cases h3 : platform = "win32" <;>
    simp [h1, h2, h3]

/-- Claim C6: with `shell: false` the options parser returns the no-shell
configuration; the result does not depend on the default-shell resolver,
the shell-name resolver, or the filesystem dependencies, and on both
platform modules it succeeds with the no-shell identity. -/
theorem claim6_shell_false_no_resolution
    (gds gds' : Env → String)
    (gsn gsn' : Env → String → ExecDeps → Except SErr String)
    (iss : ShellName → Bool) (env : Env) (o : SOptions) (fs fs' : ExecDeps)
    (h : o.shell? = some (JSShellOpt.bool false)) :
    (parseOptions ⟨gds, gsn, iss⟩ env o fs =
      parseOptions ⟨gds', gsn', iss⟩ env o fs')
    ∧ (parseOptions (poHelpersOf PlatformModule.win) env o fs =
        Except.ok ⟨fpOf o, ShellName.noShell⟩)
    ∧ (parseOptions (poHelpersOf PlatformModule.unix) env o fs =
        Except.ok ⟨fpOf o, ShellName.noShell⟩) := by
  refine ⟨?_, ?_, ?_⟩
  · rw [parseOptions_shell_false _ _ _ _ h, parseOptions_shell_false _ _ _ _ h]
  · rw [parseOptions_shell_false _ _ _ _ h]
    rfl
  · rw [parseOptions_shell_false _ _ _ _ h]
    rfl

/-- Claim C6 witness: concrete resolvers and two distinct filesystem
stand-ins. -/
theorem claim6_shell_false_witness :
    ((⟨none, some (JSShellOpt.bool false)⟩ : SOptions).shell? =
      some (JSShellOpt.bool false)) ∧
    ((parseOptions ⟨getDefaultShellUnix, getShellNameUnix, isShellSupportedUnix⟩
        [] ⟨none, some (JSShellOpt.bool false)⟩ fakeFs =
      parseOptions ⟨getDefaultShellWin, getShellNameWin, isShellSupportedUnix⟩
        [] ⟨none, some (JSShellOpt.bool false)⟩
        ⟨fun _ _ => none, fun _ => false, fun _ => none⟩)
    ∧ (parseOptions (poHelpersOf PlatformModule.win) []
        ⟨none, some (JSShellOpt.bool false)⟩ fakeFs =
        Except.ok ⟨fpOf ⟨none, some (JSShellOpt.bool false)⟩, ShellName.noShell⟩)
    ∧ (parseOptions (poHelpersOf PlatformModule.unix) []
        ⟨none, some (JSShellOpt.bool false)⟩ fakeFs =
        Except.ok ⟨fpOf ⟨none, some (JSShellOpt.bool false)⟩, ShellName.noShell⟩)) :=
  ⟨rfl, claim6_shell_false_no_resolution getDefaultShellUnix getDefaultShellWin
    getShellNameUnix getShellNameWin isShellSupportedUnix []
    ⟨none, some (JSShellOpt.bool false)⟩ fakeFs
    ⟨fun _ _ => none, fun _ => false, fun _ => none⟩ rfl⟩

/-- Claim C2: under a shell-disabled configuration, construction succeeds
and every `quote` call fails with the quoting-unsupported error, for every
input value including the empty string; `quoteAll` fails likewise on every
non-empty argument list. -/
theorem claim2_noshell_quote_always_fails (pm : PlatformModule) (env : Env)
    (o : SOptions) (fs : ExecDeps)
    (h : o.shell? = some (JSShellOpt.bool false)) :
    ∃ cfg, shescapeNew pm env o fs = Except.ok cfg
      ∧ (∀ v, sQuote cfg v = Except.error SErr.quotingUnsupported)
      ∧ (∀ vs, vs ≠ [] →
          sQuoteAll cfg vs = Except.error SErr.quotingUnsupported) := by
  have hpo : parseOptions (poHelpersOf pm) env o fs =
      Except.ok ⟨fpOf o, ShellName.noShell⟩ := by
    rw [parseOptions_shell_false _ _ _ _ h]
    cases pm <;> rfl
  refine ⟨⟨fpOf o, noshEscape, (noshUnsupported, noshUnsupported),
    unixStripFlag⟩, ?_, ?_, ?_⟩
  · unfold shescapeNew
    rw [hpo]
    cases pm <;> rfl
  · intro v
    rfl
  · intro vs hvs
    cases vs with
    | nil => exact absurd rfl hvs
    | cons v rest => rfl

/-- Claim C2 witness: the empty-string input under a concrete shell-disabled
configuration. -/
theorem claim2_noshell_quote_witness :
    ((⟨none, some (JSShellOpt.bool false)⟩ : SOptions).shell? =
      some (JSShellOpt.bool false)) ∧
    (∃ cfg, shescapeNew PlatformModule.unix []
        ⟨none, some (JSShellOpt.bool false)⟩ fakeFs = Except.ok cfg
      ∧ (∀ v, sQuote cfg v = Except.error SErr.quotingUnsupported)
      ∧ (∀ vs, vs ≠ [] →
          sQuoteAll cfg vs = Except.error SErr.quotingUnsupported)) :=
  ⟨rfl, claim2_noshell_quote_always_fails PlatformModule.unix []
    ⟨none, some (JSShellOpt.bool false)⟩ fakeFs rfl⟩

/-- Claim C5 counterexample: on the Unix module a shell specifier that
resolves to the unsupported base name `fish` does not raise a configuration
error at construction; `getShellName` silently falls back to Bash and
`parseOptions` succeeds. -/
theorem claim5_counterexample_unix_fallback :
    parseOptions (poHelpersOf PlatformModule.unix) []
      ⟨none, some (JSShellOpt.str "fish")⟩ fakeFs =
      Except.ok ⟨true, ShellName.name "bash"⟩ := rfl

/-- Claim C5 (amended): on the Windows module an unsupported resolved base
name raises the configuration error at construction time; on the Unix
module the resolver falls back to Bash, so construction succeeds instead of
raising; and after any successful construction a `quote` call can only fail
with the quoting-unsupported error, never an unsupported-shell error. -/
theorem claim5_amended_unsupported_shell :
    (∀ (env : Env) (o : SOptions) (fs : ExecDeps) (s p : String),
      o.shell? = some (JSShellOpt.str s) →
      resolveExecutable env s fs = Except.ok p →
      isShellSupportedWin (ShellName.name (winBasename p)) = false →
      parseOptions (poHelpersOf PlatformModule.win) env o fs =
        Except.error (SErr.unsupportedShell (ShellName.name (winBasename p))))
    ∧ (∀ (env : Env) (o : SOptions) (fs : ExecDeps) (s p : String),
      o.shell? = some (JSShellOpt.str s) →
      resolveExecutable env s fs = Except.ok p →
      isShellSupportedUnix (ShellName.name (posixBasename p)) = false →
      parseOptions (poHelpersOf PlatformModule.unix) env o fs =
        Except.ok ⟨fpOf o, ShellName.name "bash"⟩)
    ∧ (∀ (pm : PlatformModule) (env : Env) (o : SOptions) (fs : ExecDeps)
        (cfg : ShescapeCfg) (v : List Char) (e : SErr),
      shescapeNew pm env o fs = Except.ok cfg →
      sQuote cfg v = Except.error e → e = SErr.quotingUnsupported) := by
  refine ⟨?_, ?_, ?_⟩
  · intro env o fs s p hsh hres hsup
    unfold parseOptions
    rw [hsh]
    simp only [poHelpersOf, getShellNameWin, hres, Except.map, hsup]
    simp [hsup]
  · intro env o fs s p hsh hres hsup
    unfold parseOptions
    rw [hsh]
    simp only [poHelpersOf, getShellNameUnix, hres, Except.map]
    have hnone : (unixEscapeLookup (ShellName.name (posixBasename p))).isSome = false := by
      simpa [isShellSupportedUnix] using hsup
    rw [hnone]
    simp [isShellSupportedUnix, unixEscapeLookup]
  · intro pm env o fs cfg v e hnew hq
    unfold shescapeNew at hnew
    cases hpo : parseOptions (poHelpersOf pm) env o fs with
    | error e2 => rw [hpo] at hnew; exact absurd hnew (by simp)
    | ok cfg0 =>
      rw [hpo] at hnew
      obtain ⟨fp0, sn0⟩ := cfg0
      cases pm with
      | win =>
        cases sn0 with
        | noShell =>
          simp only [escapeLookupOf, quoteLookupOf, flagLookupOf,
            winEscapeLookup, winQuoteLookup, winFlagLookup] at hnew
          injection hnew with h3
          subst h3
          simpa [sQuote, noshUnsupported] using hq.symm
        | name s =>
          simp only [escapeLookupOf, quoteLookupOf, flagLookupOf,
            winEscapeLookup, winQuoteLookup, winFlagLookup] at hnew
          by_cases h1 : strToLower s = "cmd.exe"
          · simp only [h1, if_pos] at hnew
            injection hnew with h3
            subst h3
            simp [sQuote, quotePairFn] at hq
          · by_cases h2 : strToLower s = "powershell.exe"
            · simp only [h1, h2, if_neg, if_pos, reduceIte] at hnew
              injection hnew with h3
              subst h3
              simp [sQuote, quotePairFn] at hq
            · simp [h1, h2] at hnew
      | unix =>
        cases sn0 with
        | noShell =>
          simp only [escapeLookupOf, quoteLookupOf, flagLookupOf,
            unixEscapeLookup, unixQuoteLookup, unixFlagLookup] at hnew
          injection hnew with h3
          subst h3
          simpa [sQuote, noshUnsupported] using hq.symm
        | name s =>
          simp only [escapeLookupOf, quoteLookupOf, flagLookupOf,
            unixEscapeLookup, unixQuoteLookup, unixFlagLookup] at hnew
          by_cases h1 : s = "bash"
          · simp only [h1, if_pos] at hnew
            injection hnew with h3
            subst h3
            simp [sQuote, quotePairFn] at hq
          · by_cases h2 : s = "csh"
            · simp only [h1, h2, reduceIte] at hnew
              injection hnew with h3
              subst h3
              simp [sQuote, quotePairFn] at hq
            · by_cases h3c : s = "dash"
              · simp only [h1, h2, h3c, reduceIte] at hnew
                injection hnew with h3
                subst h3
                simp [sQuote, quotePairFn] at hq
              · by_cases h4 : s = "zsh"
                · simp only [h1, h2, h3c, h4, reduceIte] at hnew
                  injection hnew with h3
                  subst h3
                  simp [sQuote, quotePairFn] at hq
                · simp [h1, h2, h3c, h4] at hnew

/-- Claim C5 witness: the `fish` specifier on both platform modules, and a
shell-disabled construction whose quote failure is the quoting error. -/
theorem claim5_amended_witness :
    ((⟨none, some (JSShellOpt.str "fish")⟩ : SOptions).shell? =
        some (JSShellOpt.str "fish")
      ∧ resolveExecutable [] "fish" fakeFs = Except.ok "fish"
      ∧ isShellSupportedWin (ShellName.name (winBasename "fish")) = false
      ∧ parseOptions (poHelpersOf PlatformModule.win) []
          ⟨none, some (JSShellOpt.str "fish")⟩ fakeFs =
        Except.error (SErr.unsupportedShell (ShellName.name (winBasename "fish"))))
    ∧ (parseOptions (poHelpersOf PlatformModule.unix) []
        ⟨none, some (JSShellOpt.str "fish")⟩ fakeFs =
        Except.ok ⟨fpOf ⟨none, some (JSShellOpt.str "fish")⟩, ShellName.name "bash"⟩)
    ∧ ((SErr.quotingUnsupported : SErr) = SErr.quotingUnsupported) :=
  ⟨⟨rfl, rfl, rfl,
      claim5_amended_unsupported_shell.1 [] ⟨none, some (JSShellOpt.str "fish")⟩
        fakeFs "fish" "fish" rfl rfl rfl⟩,
    claim5_amended_unsupported_shell.2.1 [] ⟨none, some (JSShellOpt.str "fish")⟩
      fakeFs "fish" "fish" rfl rfl rfl,
    claim5_amended_unsupported_shell.2.2 PlatformModule.unix []
      ⟨none, some (JSShellOpt.bool false)⟩ fakeFs
      ⟨true, noshEscape, (noshUnsupported, noshUnsupported), unixStripFlag⟩
      [] SErr.quotingUnsupported rfl rfl⟩

/-- Claim C1 witness: the Dash dialect at a concrete input with a two-dash
run. -/
theorem claim1_flag_protection_witness :
    1 ≤ 2 ∧
    ((escapeTop Dialect.dash true (List.replicate 2 '-' ++ ['x']) =
        flagFn Dialect.dash
          (escapeTop Dialect.dash false (List.replicate 2 '-' ++ ['x'])))
    ∧ ((escapeTop Dialect.dash false (List.replicate 2 '-' ++ ['x'])).take
        (flagRunForm Dialect.dash 2).length = flagRunForm Dialect.dash 2)
    ∧ ((escapeTop Dialect.dash true (List.replicate 2 '-' ++ ['x'])).head? ≠
        some '-')
    ∧ (escapeTop Dialect.cmd true (List.replicate 2 '/' ++ ['x']) =
        cmdStripFlag (escapeTop Dialect.cmd false (List.replicate 2 '/' ++ ['x'])))
    ∧ ((escapeTop Dialect.cmd false (List.replicate 2 '/' ++ ['x'])).take 2 =
        List.replicate 2 '/')
    ∧ ((escapeTop Dialect.cmd true (List.replicate 2 '/' ++ ['x'])).head? ≠
        some '/')) :=
  ⟨by decide, claim1_flag_protection Dialect.dash 2 ['x'] (by decide)⟩

end Shescape
